import Mathlib

/-!
# Delphes `TreeWriter`: generator-particle flattening, pile-up attribution, leading particle

A shallow embedding of `modules/TreeWriter.cc`:

* `TreeWriter::FillParticles` (flatten),
* `TreeWriter::FillParticlesCustom` (attribute),
* `TreeWriter::findGenParticleCustom` (selectLeading),
* the part of `TreeWriter::ProcessParticleFlowCandidates` that drives them.

Numbers are exact rationals.  A pointer that the source dereferences is an
`Option`; dereferencing a null pointer is the result `none`.  The `verbose`
flag and the `right_particle` diagnostics only print, and are left out.
-/

set_option autoImplicit false

/-! ## Data model -/

/-- The four stored components of a ROOT `TLorentzVector`. -/
structure TLorentzVector where
  Px : ℚ
  Py : ℚ
  Pz : ℚ
  E : ℚ
deriving DecidableEq

namespace TLorentzVector

/-- The vector built by `TLorentzVector(0, 0, 0, 0)`. -/
instance : Zero TLorentzVector := ⟨⟨0, 0, 0, 0⟩⟩

/-- The componentwise sum computed by `operator+=`. -/
instance : Add TLorentzVector := ⟨fun a b => ⟨a.Px + b.Px, a.Py + b.Py, a.Pz + b.Pz, a.E + b.E⟩⟩

end TLorentzVector

/-- The numeric operations the code uses that are not part of this repository,
taken as a parameter: the ROOT kinematic accessors it calls on a
`TLorentzVector` (`Pt()`, `Eta()`, `Phi()`, `SetPtEtaPhiE`), which are library
functions over square roots, logarithms and trigonometry, and `toFloat`, the
value a `double` has after it is assigned to a `float` (as in
`maxpt = candidate_tmp->Momentum.Pt()` with `float maxpt`). -/
structure Kinematics where
  Pt : TLorentzVector → ℚ
  Eta : TLorentzVector → ℚ
  Phi : TLorentzVector → ℚ
  SetPtEtaPhiE : ℚ → ℚ → ℚ → ℚ → TLorentzVector
  toFloat : ℚ → ℚ

namespace Kinematics

/-- The temporary every branch builds:
`tmp.SetPtEtaPhiE(m.Pt(), m.Eta(), m.Phi(), m.E())`. -/
def rebuild (K : Kinematics) (m : TLorentzVector) : TLorentzVector :=
  K.SetPtEtaPhiE (K.Pt m) (K.Eta m) (K.Phi m) m.E

/-- Library law at one vector: reading `(pt, eta, phi, E)` off `m` and
setting them again gives `m` back. -/
def RoundTrip (K : Kinematics) (m : TLorentzVector) : Prop :=
  K.rebuild m = m

/-- The number `x` is unchanged when it is assigned to a `float`. -/
def Exact (K : Kinematics) (x : ℚ) : Prop :=
  K.toFloat x = x

/-- The greatest `k` with `2 ^ k ≤ n`, for `n ≥ 1`; `fuel` bounds the number
of halvings, and `n` itself is enough. -/
def floorLog2 : ℕ → ℕ → ℕ
  | 0, _ => 0
  | fuel + 1, n => if n < 2 then 0 else floorLog2 fuel (n / 2) + 1

/-- The binary exponent of the positive number `num / den`: the `e` with
`2 ^ e ≤ num / den < 2 ^ (e + 1)`. -/
def binaryExponent (num den : ℕ) : ℤ :=
  if den ≤ num then (floorLog2 (num / den) (num / den) : ℤ)
  else
    let l := floorLog2 (den / num) (den / num)
    if num * 2 ^ l = den then -(l : ℤ) else -((l : ℤ) + 1)

/-- The natural number nearest to `a / b`, the even one on a tie. -/
def divNearestEven (a b : ℕ) : ℕ :=
  let q := a / b
  let r := a % b
  if 2 * r < b then q else if b < 2 * r then q + 1 else if q % 2 = 0 then q else q + 1

/-- The conversion of a positive `double` to `float`: the multiple of the unit
in the last place `2 ^ (e - 23)` nearest to `x`, where `e` is the binary
exponent of `x` and at least `-126`. -/
def toSinglePos (x : ℚ) : ℚ :=
  let num := x.num.natAbs
  let den := x.den
  let e := max (binaryExponent num den) (-126)
  if 23 ≤ e then
    let u := 2 ^ (e - 23).toNat
    (((divNearestEven num (den * u) * u : ℕ) : ℤ) : ℚ)
  else
    let j := (23 - e).toNat
    let m := divNearestEven (num * 2 ^ j) den
    if m * den = num * 2 ^ j then x else mkRat m (2 ^ j)

/-- The conversion of a `double` to `float` (IEEE 754 single precision, round
to nearest, ties to even).  Beyond the largest finite `float` the conversion
gives an infinity, which `ℚ` does not have: there the number is rounded as if
the exponent had no upper bound. -/
def toSingle (x : ℚ) : ℚ :=
  if 0 < x then toSinglePos x else if x < 0 then -toSinglePos (-x) else 0

/-- A computable instance for evaluating examples.  It agrees with ROOT on
momenta along the non-negative x axis (`Py = Pz = 0`, `Px ≥ 0`), where
`Pt() = Px`, `Eta() = 0`, `Phi() = 0` and
`SetPtEtaPhiE(pt, 0, 0, e) = (pt, 0, 0, e)`; the examples only use such
momenta. -/
def axis : Kinematics where
  Pt := fun m => m.Px
  Eta := fun m => m.Pz
  Phi := fun m => m.Py
  SetPtEtaPhiE := fun pt eta phi e => ⟨pt, phi, eta, e⟩
  toFloat := toSingle

end Kinematics

/-- The attributes of a `Candidate` the embedded code reads, without its
array of associated candidates. -/
structure CandidateData where
  UniqueID : ℕ
  IsPU : Bool
  PT : ℚ
  Momentum : TLorentzVector
  Position : TLorentzVector
deriving DecidableEq

/-- A Delphes `Candidate`: its attributes and the ordered array returned by
`GetCandidates()`.  The association graph is acyclic, so a pointer to a
candidate is the candidate itself. -/
inductive Candidate where
  | mk (data : CandidateData) (fArray : List Candidate)

namespace Candidate

def data : Candidate → CandidateData
  | mk d _ => d

def GetCandidates : Candidate → List Candidate
  | mk _ cs => cs

def IsPU (c : Candidate) : Bool := c.data.IsPU

def PT (c : Candidate) : ℚ := c.data.PT

def Momentum (c : Candidate) : TLorentzVector := c.data.Momentum

def Position (c : Candidate) : TLorentzVector := c.data.Position

/-- The same candidate with another pile-up flag. -/
def withIsPU (c : Candidate) (b : Bool) : Candidate :=
  mk { c.data with IsPU := b } c.GetCandidates

end Candidate

/-- A ROOT `TRefArray`, as the ordered list of the objects it refers to. -/
abbrev TRefArray := List Candidate

namespace TRefArray

/-- The empty array left by `array->Clear()`. -/
def Clear (_array : TRefArray) : TRefArray := []

/-- The array after `array->Add(obj)`; ROOT returns at once on a null `obj`. -/
def Add (array : TRefArray) (obj : Option Candidate) : TRefArray :=
  match obj with
  | some c => array ++ [c]
  | none => array

end TRefArray

/-- The result of the floating-point division `a / b` of two finite numbers,
up to rounding: `0 / 0` is NaN, another number over zero is infinite. -/
inductive Fraction where
  | finite (q : ℚ)
  | infinite
  | nan
deriving DecidableEq

/-- Floating-point division of finite numbers, up to rounding. -/
def Fraction.div (a b : ℚ) : Fraction :=
  if b = 0 then (if a = 0 then Fraction.nan else Fraction.infinite)
  else Fraction.finite (a / b)

namespace TreeWriter

/-! ## `TreeWriter::FillParticles` -/

/-- The tower loop of `FillParticles`: `array->Add(candidate->GetCandidates()->At(0))`
for each entry of the tower. -/
def FillParticles.tower (array : TRefArray) : List Candidate → TRefArray
  | [] => array
  | t :: rest => FillParticles.tower (array.Add t.GetCandidates.head?) rest

/-- One pass of the outer `while` loop of `FillParticles`. -/
def FillParticles.body (array : TRefArray) (candidate : Candidate) : TRefArray :=
  match candidate.GetCandidates with
  | [] => array.Add (some candidate)
  | first :: _ =>
    if first.GetCandidates.length = 0 then array.Add (some first)
    else FillParticles.tower array candidate.GetCandidates

/-- The outer `while` loop of `FillParticles` over the constituents. -/
def FillParticles.loop (array : TRefArray) : List Candidate → TRefArray
  | [] => array
  | c :: rest => FillParticles.loop (FillParticles.body array c) rest

/-- The array after `FillParticles(candidate, array)`. -/
def FillParticles (candidate : Candidate) (array : TRefArray) : TRefArray :=
  FillParticles.loop array.Clear candidate.GetCandidates

/-! ## `TreeWriter::FillParticlesCustom` -/

/-- The locals of `FillParticlesCustom` that change in its loops. -/
structure AttrState where
  array : TRefArray
  hard : List TLorentzVector
  soft : List TLorentzVector

/-- The guarded `push_back`:
`if (std::find(v.begin(), v.end(), tmp) == v.end()) v.push_back(tmp)`. -/
def pushIfAbsent (v : List TLorentzVector) (tmp : TLorentzVector) : List TLorentzVector :=
  if tmp ∈ v then v else v ++ [tmp]

/-- The `if (…->IsPU) … soft … else … hard …` block shared by the branches. -/
def AttrState.file (s : AttrState) (isPU : Bool) (tmp : TLorentzVector) : AttrState :=
  if isPU then { s with soft := pushIfAbsent s.soft tmp }
  else { s with hard := pushIfAbsent s.hard tmp }

/-- One pass of the tower loop of `FillParticlesCustom`.  `candidate_tmp` is
`At(0)` of the tower entry; reading its momentum fails when it is null. -/
def FillParticlesCustom.towerBody (K : Kinematics) (s : AttrState) (candidate : Candidate) :
    Option AttrState :=
  let array := s.array.Add candidate.GetCandidates.head?
  match candidate.GetCandidates.head? with
  | none => none
  | some candidate_tmp =>
    some (AttrState.file { s with array := array } candidate.IsPU (K.rebuild candidate_tmp.Momentum))

/-- The tower loop of `FillParticlesCustom`. -/
def FillParticlesCustom.tower (K : Kinematics) (s : AttrState) : List Candidate → Option AttrState
  | [] => some s
  | t :: rest =>
    match FillParticlesCustom.towerBody K s t with
    | none => none
    | some s1 => FillParticlesCustom.tower K s1 rest

/-- One pass of the outer `while` loop of `FillParticlesCustom`. -/
def FillParticlesCustom.body (K : Kinematics) (s : AttrState) (candidate : Candidate) :
    Option AttrState :=
  match candidate.GetCandidates with
  | [] =>
    some (AttrState.file { s with array := s.array.Add (some candidate) } candidate.IsPU
      (K.rebuild candidate.Momentum))
  | first :: _ =>
    if first.GetCandidates.length = 0 then
      some (AttrState.file { s with array := s.array.Add (some first) } first.IsPU
        (K.rebuild first.Momentum))
    else FillParticlesCustom.tower K s candidate.GetCandidates

/-- The outer `while` loop of `FillParticlesCustom`. -/
def FillParticlesCustom.loop (K : Kinematics) (s : AttrState) : List Candidate → Option AttrState
  | [] => some s
  | c :: rest =>
    match FillParticlesCustom.body K s c with
    | none => none
    | some s1 => FillParticlesCustom.loop K s1 rest

/-- The loop `for (i = 0; i < v.size(); i++) p4 += v[i]`. -/
def sumInto (p4 : TLorentzVector) : List TLorentzVector → TLorentzVector
  | [] => p4
  | v :: rest => sumInto (p4 + v) rest

/-- The pair `(hardp4, softp4)` returned by `FillParticlesCustom(candidate, array, verbose)`
together with the array it leaves, or `none` when a null pointer is dereferenced. -/
def FillParticlesCustom (K : Kinematics) (candidate : Candidate) (array : TRefArray) :
    Option ((TLorentzVector × TLorentzVector) × TRefArray) :=
  match FillParticlesCustom.loop K ⟨array.Clear, [], []⟩ candidate.GetCandidates with
  | none => none
  | some s =>
    some ((sumInto (K.SetPtEtaPhiE 0 0 0 0) s.hard, sumInto (K.SetPtEtaPhiE 0 0 0 0) s.soft),
      s.array)

/-! ## `TreeWriter::findGenParticleCustom` -/

/-- The locals of `findGenParticleCustom` that change in its loops. -/
structure LeadState where
  array : TRefArray
  maxpart : TLorentzVector
  maxpt : ℚ
  hard : List TLorentzVector
  soft : List TLorentzVector

/-- One pass of the tower loop of `findGenParticleCustom`.  `maxpt` is a
`float`, so the `double` returned by `Pt()` is narrowed when it is stored; the
comparison itself is between the `double` and the stored `float`. -/
def findGenParticleCustom.towerBody (K : Kinematics) (s : LeadState) (candidate : Candidate) :
    Option LeadState :=
  let array := s.array.Add candidate.GetCandidates.head?
  match candidate.GetCandidates.head? with
  | none => none
  | some candidate_tmp =>
    let tmp := K.rebuild candidate_tmp.Momentum
    if K.Pt candidate_tmp.Momentum > s.maxpt then
      some { s with
        array := array, maxpart := tmp, maxpt := K.toFloat (K.Pt candidate_tmp.Momentum) }
    else some { s with array := array }

/-- The tower loop of `findGenParticleCustom`. -/
def findGenParticleCustom.tower (K : Kinematics) (s : LeadState) : List Candidate → Option LeadState
  | [] => some s
  | t :: rest =>
    match findGenParticleCustom.towerBody K s t with
    | none => none
    | some s1 => findGenParticleCustom.tower K s1 rest

/-- The particle branch of `findGenParticleCustom`.  The cached `PT` is itself
a `float`, so it is stored in `maxpt` as it is. -/
def findGenParticleCustom.particle (K : Kinematics) (s : LeadState) (candidate : Candidate) :
    LeadState :=
  let array := s.array.Add (some candidate)
  let tmp := K.rebuild candidate.Momentum
  let s1 : LeadState :=
    if candidate.PT > s.maxpt then { s with array := array, maxpart := tmp, maxpt := candidate.PT }
    else { s with array := array }
  if candidate.IsPU then { s1 with soft := pushIfAbsent s1.soft tmp }
  else { s1 with hard := pushIfAbsent s1.hard tmp }

/-- One pass of the outer `while` loop of `findGenParticleCustom`.  The track
branch only adds to the array: its comparison is commented out in the source.
The tower branch sets `maxpt = 0` before its loop. -/
def findGenParticleCustom.body (K : Kinematics) (s : LeadState) (candidate : Candidate) :
    Option LeadState :=
  match candidate.GetCandidates with
  | [] => some (findGenParticleCustom.particle K s candidate)
  | first :: _ =>
    if first.GetCandidates.length = 0 then some { s with array := s.array.Add (some first) }
    else findGenParticleCustom.tower K { s with maxpt := 0 } candidate.GetCandidates

/-- The outer `while` loop of `findGenParticleCustom`. -/
def findGenParticleCustom.loop (K : Kinematics) (s : LeadState) : List Candidate → Option LeadState
  | [] => some s
  | c :: rest =>
    match findGenParticleCustom.body K s c with
    | none => none
    | some s1 => findGenParticleCustom.loop K s1 rest

/-- The state of `findGenParticleCustom` when its outer loop starts:
`maxpart(0,0,0,0)`, `maxpt = -1`, the array cleared. -/
def findGenParticleCustom.init (array : TRefArray) : LeadState :=
  ⟨array.Clear, 0, -1, [], []⟩

/-- The vector `maxpart` returned by `findGenParticleCustom(candidate, array)`
together with the array it leaves, or `none` when a null pointer is
dereferenced.  The sums of `hard` and `soft` it forms at the end are not
returned. -/
def findGenParticleCustom (K : Kinematics) (candidate : Candidate) (array : TRefArray) :
    Option (TLorentzVector × TRefArray) :=
  match findGenParticleCustom.loop K (findGenParticleCustom.init array) candidate.GetCandidates with
  | none => none
  | some s => some (s.maxpart, s.array)

/-! ## `TreeWriter::ProcessParticleFlowCandidates` -/

/-- The fields of a `ParticleFlowCandidate` branch entry that are filled from
the associated generator particles. -/
structure ParticleFlowCandidate where
  X : ℚ
  Y : ℚ
  Z : ℚ
  leadingGenPart_PT : ℚ
  leadingGenPart_Eta : ℚ
  leadingGenPart_Phi : ℚ
  leadingGenPart_E : ℚ
  Particles : TRefArray
  hardfrac : Fraction
  pufrac : Fraction

/-- The part of the loop body of `ProcessParticleFlowCandidates` from
`particle = candidate->GetCandidates()->At(0)` to the two fractions.  The
position of `particle` is read without a null check; `entry->Particles` of the
new entry starts empty. -/
def ProcessParticleFlowCandidates.body (K : Kinematics) (candidate : Candidate) :
    Option ParticleFlowCandidate :=
  match candidate.GetCandidates.head? with
  | none => none
  | some particle =>
    let initialPosition := particle.Position
    match findGenParticleCustom K candidate [] with
    | none => none
    | some (maxpart, particles1) =>
      match FillParticlesCustom K candidate particles1 with
      | none => none
      | some ((hard, soft), particles2) =>
        some {
          X := initialPosition.Px
          Y := initialPosition.Py
          Z := initialPosition.Pz
          leadingGenPart_PT := K.Pt maxpart
          leadingGenPart_Eta := K.Eta maxpart
          leadingGenPart_Phi := K.Phi maxpart
          leadingGenPart_E := maxpart.E
          Particles := particles2
          hardfrac := Fraction.div hard.E (hard.E + soft.E)
          pufrac := Fraction.div soft.E (hard.E + soft.E) }

/-- The loop of `ProcessParticleFlowCandidates` over the input array, one entry
per candidate. -/
def ProcessParticleFlowCandidates (K : Kinematics) : List Candidate → Option (List ParticleFlowCandidate)
  | [] => some []
  | c :: rest =>
    match ProcessParticleFlowCandidates.body K c with
    | none => none
    | some entry =>
      match ProcessParticleFlowCandidates K rest with
      | none => none
      | some entries => some (entry :: entries)

end TreeWriter

/-! ## The shapes and per-constituent emissions of the specification -/

namespace Spec

/-- The three shapes of the specification's data model. -/
inductive Shape where
  | Leaf
  | TrackLike
  | TowerLike
deriving DecidableEq

/-- Following the specification (§4.1): the shape of a node, from its own
child count and its first child's child count. -/
def classify (node : Candidate) : Shape :=
  match node.GetCandidates with
  | [] => Shape.Leaf
  | first :: _ => if first.GetCandidates.length = 0 then Shape.TrackLike else Shape.TowerLike

/-- The first children of the entries of a tower, in stored order. -/
def towerLeaves (ts : List Candidate) : List Candidate :=
  ts.flatMap (fun t => t.GetCandidates.head?.toList)

/-- Following the specification (§4.2): what one constituent emits.  A Leaf
emits itself, a TrackLike its child, a TowerLike the first child of each of its
children. -/
def emission (c : Candidate) : List Candidate :=
  match classify c with
  | Shape.Leaf => [c]
  | Shape.TrackLike => c.GetCandidates.head?.toList
  | Shape.TowerLike => towerLeaves c.GetCandidates

/-- Following the specification (§4.2): `flatten`, the concatenation of the
emissions of the constituents in stored order. -/
def flatten (outputObject : Candidate) : List Candidate :=
  outputObject.GetCandidates.flatMap emission

/-- Following the specification (§4.3): the (classification key, momentum)
pairs of a tower.  The key is the flag of the tower entry, the momentum that of
its first child. -/
def towerKeyed (K : Kinematics) (ts : List Candidate) : List (Bool × TLorentzVector) :=
  ts.flatMap (fun t => t.GetCandidates.head?.toList.map (fun l => (t.IsPU, K.rebuild l.Momentum)))

/-- Following the specification (§4.3): the (classification key, momentum)
pairs one constituent contributes. -/
def keyed (K : Kinematics) (c : Candidate) : List (Bool × TLorentzVector) :=
  match classify c with
  | Shape.Leaf => [(c.IsPU, K.rebuild c.Momentum)]
  | Shape.TrackLike => c.GetCandidates.head?.toList.map (fun l => (l.IsPU, K.rebuild l.Momentum))
  | Shape.TowerLike => towerKeyed K c.GetCandidates

/-- The momenta of the pairs whose key is `b`, in order. -/
def momenta (b : Bool) (kvs : List (Bool × TLorentzVector)) : List TLorentzVector :=
  (kvs.filter (fun p => p.1 == b)).map Prod.snd

end Spec

namespace Candidate

/-- No null pointer is read while this constituent is processed: if it is
handled by the tower branch, each of its entries has a first entry. -/
def towerFilled (c : Candidate) : Bool :=
  match c.GetCandidates with
  | [] => true
  | first :: _ =>
    first.GetCandidates.isEmpty || c.GetCandidates.all (fun t => !t.GetCandidates.isEmpty)

/-- No null pointer is read while the constituents of this object are
processed. -/
def derefOK (obj : Candidate) : Bool :=
  obj.GetCandidates.all towerFilled

/-- The tower `W` with the pile-up flag of the first entry of each of its
entries replaced by the value `f` gives. -/
def reflagLeaves (f : Candidate → Bool) (W : Candidate) : Candidate :=
  mk W.data (W.GetCandidates.map (fun t =>
    mk t.data (match t.GetCandidates with
      | [] => []
      | l :: more => l.withIsPU (f l) :: more)))

end Candidate

namespace TreeWriter

/-! ## The running maximum of `findGenParticleCustom`, apart from the state -/

/-- The comparison `if (pt > maxpt) { maxpart = x; maxpt = pt; }` run over a
list of scored items, from the running best `(maxpart, maxpt)`; `store pt` is
the value `maxpt` holds after the assignment. -/
def runMax {α : Type} (store : ℚ → ℚ) (best : α × ℚ) : List (ℚ × α) → α × ℚ
  | [] => best
  | (pt, x) :: rest => runMax store (if pt > best.2 then (x, store pt) else best) rest

/-- What one constituent does to the running best of `findGenParticleCustom`,
with `payload l` recorded for a winning Leaf `l`: the particle branch compares
the cached `PT` and stores it as it is, the track branch compares nothing, the
tower branch sets the score to zero, compares the `Pt()` of the momentum of
each first child and stores it narrowed to `float`. -/
def leadStep {α : Type} (payload : Candidate → α) (K : Kinematics) (best : α × ℚ)
    (c : Candidate) : α × ℚ :=
  match Spec.classify c with
  | Spec.Shape.Leaf => runMax id best [(c.PT, payload c)]
  | Spec.Shape.TrackLike => best
  | Spec.Shape.TowerLike =>
    runMax K.toFloat (best.1, 0)
      ((Spec.towerLeaves c.GetCandidates).map (fun l => (K.Pt l.Momentum, payload l)))

/-- The Leaf whose rebuilt momentum `maxpart` holds when the outer loop of
`findGenParticleCustom` ends: the last Leaf that passed a comparison, or `none`
when no Leaf passed one. -/
def leadingLeaf (K : Kinematics) (obj : Candidate) : Option Candidate :=
  (obj.GetCandidates.foldl (leadStep some K) (none, -1)).1

/-- The vector `maxpart` holds for a winning Leaf, and the initial
`maxpart(0, 0, 0, 0)` when there is none. -/
def leadingMomentum (K : Kinematics) : Option Candidate → TLorentzVector
  | none => 0
  | some l => K.rebuild l.Momentum

end TreeWriter

/-! ## Concrete candidates for evaluating the operations -/

namespace Example

/-- A generator particle without associated candidates. -/
def leaf (id : ℕ) (isPU : Bool) (pt : ℚ) (momentum : TLorentzVector) : Candidate :=
  Candidate.mk ⟨id, isPU, pt, momentum, 0⟩ []

/-- A candidate with the given associated candidates. -/
def node (id : ℕ) (isPU : Bool) (candidates : List Candidate) : Candidate :=
  Candidate.mk ⟨id, isPU, 0, 0, 0⟩ candidates

/-- A Leaf with cached `PT` 9 followed by a tower whose only Leaf is at rest,
so that its `Pt()` is 0. -/
def leafThenRestTower : Candidate :=
  node 0 false
    [leaf 1 false 9 ⟨9, 0, 0, 9⟩,
     node 2 false [node 3 false [leaf 4 false 0 ⟨0, 0, 0, 1⟩]]]

/-- An object whose only constituent is a TrackLike node over a Leaf with
cached `PT` 5. -/
def singleTrack : Candidate :=
  node 0 false [node 1 false [leaf 2 false 5 ⟨5, 0, 0, 5⟩]]

/-- A tower of two entries: a pile-up entry over a Leaf not flagged as
pile-up, and the reverse. -/
def mixedTower : Candidate :=
  node 10 false
    [node 11 true [leaf 1 false 4 ⟨4, 0, 0, 4⟩],
     node 12 false [leaf 2 true 6 ⟨6, 0, 0, 6⟩]]

end Example

/-! ## Further notions of the specification -/

namespace Spec

/-- Following the specification (§4.1): the shape as a function of the two
counts alone, the node's own child count and, when it has a first child, that
child's child count. -/
def classifyByCounts (childCount : ℕ) (firstChildCount : Option ℕ) : Shape :=
  if childCount = 0 then Shape.Leaf
  else if firstChildCount = some 0 then Shape.TrackLike
  else Shape.TowerLike

/-- A node with no children. -/
def isLeaf (c : Candidate) : Bool := c.GetCandidates.isEmpty

/-- A node with exactly one child, itself a Leaf. -/
def hasOneLeafChild (c : Candidate) : Bool :=
  match c.GetCandidates with
  | [l] => isLeaf l
  | _ => false

/-- Following the specification (§3): a constituent is a Leaf, a node with
exactly one Leaf child, or a node whose children each have exactly one Leaf
child. -/
def wellShapedConstituent (c : Candidate) : Bool :=
  isLeaf c || hasOneLeafChild c || c.GetCandidates.all hasOneLeafChild

/-- Following the specification (§3): every constituent of the object is
well shaped. -/
def wellShaped (outputObject : Candidate) : Bool :=
  outputObject.GetCandidates.all wellShapedConstituent

/-- The number of constituents of the given shape. -/
def countShape (s : Shape) (cs : List Candidate) : ℕ :=
  (cs.filter (fun c => decide (classify c = s))).length

/-- The total number of children of the TowerLike constituents. -/
def towerChildren (cs : List Candidate) : ℕ :=
  ((cs.filter (fun c => decide (classify c = Shape.TowerLike))).map
    (fun c => c.GetCandidates.length)).sum

end Spec

namespace Candidate

mutual
/-- The same graph with every pile-up flag cleared. -/
def eraseIsPU : Candidate → Candidate
  | mk d cs => mk { d with IsPU := false } (eraseIsPUList cs)
/-- The same list of graphs with every pile-up flag cleared. -/
def eraseIsPUList : List Candidate → List Candidate
  | [] => []
  | c :: cs => eraseIsPU c :: eraseIsPUList cs
end

/-- The same candidate with another cached `PT`. -/
def withPT (c : Candidate) (pt : ℚ) : Candidate :=
  mk { c.data with PT := pt } c.GetCandidates

/-- The tower `W` with the cached `PT` of the first entry of each of its
entries replaced by the value `f` gives. -/
def recacheLeaves (f : Candidate → ℚ) (W : Candidate) : Candidate :=
  mk W.data (W.GetCandidates.map (fun t =>
    mk t.data (match t.GetCandidates with
      | [] => []
      | l :: more => l.withPT (f l) :: more)))

end Candidate

namespace Example

/-- An object whose only constituent goes to the tower branch (its first
entry has a child) while its second entry has no child. -/
def gappedTower : Candidate :=
  node 0 false
    [node 1 false [node 2 false [leaf 3 false 4 ⟨4, 0, 0, 4⟩], node 5 false []]]

/-- A tower of two entries whose Leaves have `Pt()` 33554434 and 33554433: the
first is not a single-precision value and is stored as 33554432. -/
def narrowedTower : Candidate :=
  node 1 false
    [node 2 false [leaf 3 false 0 ⟨33554434, 0, 0, 33554434⟩],
     node 4 false [leaf 5 false 0 ⟨33554433, 0, 0, 33554433⟩]]

/-- A Leaf with cached `PT` 9 followed by `narrowedTower`. -/
def leafThenNarrowedTower : Candidate :=
  node 0 false [leaf 6 false 9 ⟨9, 0, 0, 9⟩, narrowedTower]

/-- An object whose only constituent is `narrowedTower`. -/
def singleNarrowedTower : Candidate :=
  node 0 false [narrowedTower]

/-- A tower whose only Leaf has `Pt()` 16777219, stored in single precision as
16777220, followed by a Leaf with cached `PT` 16777220. -/
def roundedTowerThenLeaf : Candidate :=
  node 0 false
    [node 1 false [node 2 false [leaf 3 false 0 ⟨16777219, 0, 0, 16777219⟩]],
     leaf 4 false 16777220 ⟨16777220, 0, 0, 16777220⟩]

/-- A tower whose first entry is over a Leaf at rest (`Pt() = 0`) and whose
second entry has no child. -/
def restThenGapTower : Candidate :=
  node 0 false
    [node 1 false [node 2 false [leaf 3 false 0 ⟨0, 0, 0, 1⟩], node 4 false []]]

end Example

namespace TreeWriter

/-- The value `maxpt` holds when the tower loop, started at its `maxpt = 0`,
has compared the Leaves `ls`: the value stored for the last of them that passed
the comparison, and 0 when none did. -/
def scoreAfter (K : Kinematics) (ls : List Candidate) : ℚ :=
  (runMax K.toFloat ((), (0 : ℚ)) (ls.map (fun l => (K.Pt l.Momentum, ())))).2

/-- The score a tower leaves in `maxpt`: the value stored for the last of the
first children of its entries that passed the comparison, and 0 when none
did. -/
def towerScore (K : Kinematics) (W : Candidate) : ℚ :=
  scoreAfter K (Spec.towerLeaves W.GetCandidates)

/-! ## The conversion to single precision on some numbers -/

/-- The conversion to `float` evaluated: a tie goes to the even neighbour
(`2^24 + 1` down, `2^24 + 3` up, `2^25 + 2` down, `1 + 2^-24` down), numbers a
`float` holds are unchanged, and `1/10` becomes `13421773 / 2^27`. -/
theorem toSingle_examples :
    Kinematics.toSingle 16777217 = 16777216 ∧ Kinematics.toSingle 16777219 = 16777220 ∧
    Kinematics.toSingle 33554434 = 33554432 ∧ Kinematics.toSingle 33554433 = 33554432 ∧
    Kinematics.toSingle (mkRat 33554433 2) = 16777216 ∧
    Kinematics.toSingle (mkRat 16777217 16777216) = 1 ∧
    Kinematics.toSingle (mkRat 1 10) = mkRat 13421773 134217728 ∧
    Kinematics.toSingle 0 = 0 ∧ Kinematics.toSingle 1 = 1 ∧ Kinematics.toSingle 2 = 2 ∧
    Kinematics.toSingle 9 = 9 ∧ Kinematics.toSingle (-3) = -3 ∧
    Kinematics.toSingle (mkRat 1 2) = mkRat 1 2 ∧ Kinematics.toSingle 16777220 = 16777220 :=
  ⟨rfl, rfl, rfl, rfl, rfl, rfl, rfl, rfl, rfl, rfl, rfl, rfl, rfl, rfl⟩

/-! ## Componentwise arithmetic of `TLorentzVector` -/

theorem TLorentzVector_add_E (a b : TLorentzVector) : (a + b).E = a.E + b.E := rfl

theorem TLorentzVector_zero_E : (0 : TLorentzVector).E = 0 := rfl

theorem FillParticles_tower_eq (array : TRefArray) (ts : List Candidate) :
    FillParticles.tower array ts = array ++ Spec.towerLeaves ts := by
  induction ts generalizing array with
  | nil => simp [FillParticles.tower, Spec.towerLeaves]
  | cons t rest ih =>
    simp only [FillParticles.tower, ih, Spec.towerLeaves, List.flatMap_cons]
    cases h : t.GetCandidates.head? <;> simp [TRefArray.Add]

theorem FillParticles_body_eq (array : TRefArray) (c : Candidate) :
    FillParticles.body array c = array ++ Spec.emission c := by
  unfold FillParticles.body Spec.emission Spec.classify
  cases h : c.GetCandidates with
  | nil => simp [TRefArray.Add]
  | cons first rest =>
    by_cases hf : first.GetCandidates.length = 0
    · simp [hf, TRefArray.Add]
    · simp [hf, FillParticles_tower_eq]

theorem FillParticles_loop_eq (array : TRefArray) (cs : List Candidate) :
    FillParticles.loop array cs = array ++ cs.flatMap Spec.emission := by
  induction cs generalizing array with
  | nil => simp [FillParticles.loop]
  | cons c rest ih =>
    simp [FillParticles.loop, ih, FillParticles_body_eq]

theorem FillParticles_eq_flatten (obj : Candidate) (array : TRefArray) :
    FillParticles obj array = Spec.flatten obj := by
  simp [FillParticles, FillParticles_loop_eq, TRefArray.Clear, Spec.flatten]

/-- C1: `FillParticles` returns, whatever the array held before, the
concatenation over the constituents in stored order of what each emits (a Leaf
itself, a TrackLike its child, a TowerLike the first child of each of its
children), and on `[L, T(leaf=p), W{T(leaf=q), T(leaf=r)}]` exactly
`[L, p, q, r]`. -/
theorem FillParticles_concat_emission :
    (∀ (obj : Candidate) (array : TRefArray),
      FillParticles obj array = obj.GetCandidates.flatMap Spec.emission) ∧
    (∀ (dObj dL dT dp dW dT1 dq dT2 dr : CandidateData) (array : TRefArray),
      FillParticles
        (Candidate.mk dObj
          [Candidate.mk dL [],
           Candidate.mk dT [Candidate.mk dp []],
           Candidate.mk dW [Candidate.mk dT1 [Candidate.mk dq []],
                            Candidate.mk dT2 [Candidate.mk dr []]]]) array
        = [Candidate.mk dL [], Candidate.mk dp [], Candidate.mk dq [], Candidate.mk dr []]) := by
  constructor
  · intro obj array
    simp [FillParticles, FillParticles_loop_eq, TRefArray.Clear]
  · intros
    rfl

/-! ## `FillParticlesCustom` files the keyed momenta of the specification -/

theorem momenta_append (b : Bool) (l1 l2 : List (Bool × TLorentzVector)) :
    Spec.momenta b (l1 ++ l2) = Spec.momenta b l1 ++ Spec.momenta b l2 := by
  simp [Spec.momenta]

theorem AttrState_file_eq (s : AttrState) (b : Bool) (v : TLorentzVector) :
    s.file b v =
      ⟨s.array, (Spec.momenta false [(b, v)]).foldl pushIfAbsent s.hard,
        (Spec.momenta true [(b, v)]).foldl pushIfAbsent s.soft⟩ := by
  cases b <;> simp [AttrState.file, Spec.momenta]

theorem FillParticlesCustom_tower_eq (K : Kinematics) (ts : List Candidate) (s : AttrState)
    (h : ts.all (fun t => !t.GetCandidates.isEmpty) = true) :
    FillParticlesCustom.tower K s ts =
      some ⟨s.array ++ Spec.towerLeaves ts,
        (Spec.momenta false (Spec.towerKeyed K ts)).foldl pushIfAbsent s.hard,
        (Spec.momenta true (Spec.towerKeyed K ts)).foldl pushIfAbsent s.soft⟩ := by
  induction ts generalizing s with
  | nil => simp [FillParticlesCustom.tower, Spec.towerKeyed, Spec.towerLeaves, Spec.momenta]
  | cons t rest ih =>
    simp only [List.all_cons, Bool.and_eq_true] at h
    obtain ⟨ht, hrest⟩ := h
    cases hc : t.GetCandidates with
    | nil => simp [hc] at ht
    | cons l more =>
      have hk : Spec.towerKeyed K (t :: rest)
          = [(t.IsPU, K.rebuild l.Momentum)] ++ Spec.towerKeyed K rest := by
        simp [Spec.towerKeyed, hc]
      have hl : Spec.towerLeaves (t :: rest) = [l] ++ Spec.towerLeaves rest := by
        simp [Spec.towerLeaves, hc]
      simp only [FillParticlesCustom.tower, FillParticlesCustom.towerBody, hc, List.head?_cons,
        TRefArray.Add, ih _ hrest, hk, hl, momenta_append, List.foldl_append, AttrState_file_eq]
      simp

theorem FillParticlesCustom_body_eq (K : Kinematics) (c : Candidate) (s : AttrState)
    (h : c.towerFilled = true) :
    FillParticlesCustom.body K s c =
      some ⟨s.array ++ Spec.emission c,
        (Spec.momenta false (Spec.keyed K c)).foldl pushIfAbsent s.hard,
        (Spec.momenta true (Spec.keyed K c)).foldl pushIfAbsent s.soft⟩ := by
  unfold FillParticlesCustom.body Spec.emission Spec.keyed Spec.classify
  unfold Candidate.towerFilled at h
  cases hc : c.GetCandidates with
  | nil => simp [TRefArray.Add, AttrState_file_eq]
  | cons first rest =>
    rw [hc] at h
    by_cases hf : first.GetCandidates.length = 0
    · simp [hf, TRefArray.Add, AttrState_file_eq]
    · have hf2 : first.GetCandidates.isEmpty = false := by
        cases hfc : first.GetCandidates with
        | nil => simp [hfc] at hf
        | cons a b => rfl
      simp only [hf2, Bool.false_or] at h
      simp [hf, FillParticlesCustom_tower_eq K _ s h]

theorem FillParticlesCustom_loop_eq (K : Kinematics) (cs : List Candidate) (s : AttrState)
    (h : cs.all Candidate.towerFilled = true) :
    FillParticlesCustom.loop K s cs =
      some ⟨s.array ++ cs.flatMap Spec.emission,
        (Spec.momenta false (cs.flatMap (Spec.keyed K))).foldl pushIfAbsent s.hard,
        (Spec.momenta true (cs.flatMap (Spec.keyed K))).foldl pushIfAbsent s.soft⟩ := by
  induction cs generalizing s with
  | nil => simp [FillParticlesCustom.loop, Spec.momenta]
  | cons c rest ih =>
    simp only [List.all_cons, Bool.and_eq_true] at h
    obtain ⟨hc, hrest⟩ := h
    simp only [FillParticlesCustom.loop, FillParticlesCustom_body_eq K c s hc, ih _ hrest,
      List.flatMap_cons, momenta_append, List.foldl_append]
    simp

theorem FillParticlesCustom_eq (K : Kinematics) (obj : Candidate) (array : TRefArray)
    (h : obj.derefOK = true) :
    FillParticlesCustom K obj array =
      some ((sumInto (K.SetPtEtaPhiE 0 0 0 0)
              ((Spec.momenta false (obj.GetCandidates.flatMap (Spec.keyed K))).foldl pushIfAbsent []),
             sumInto (K.SetPtEtaPhiE 0 0 0 0)
              ((Spec.momenta true (obj.GetCandidates.flatMap (Spec.keyed K))).foldl pushIfAbsent [])),
            Spec.flatten obj) := by
  unfold FillParticlesCustom
  rw [FillParticlesCustom_loop_eq K _ _ h]
  simp [TRefArray.Clear, Spec.flatten]

theorem towerFilled_of_tower (W first : Candidate) (rest : List Candidate)
    (hW : W.GetCandidates = first :: rest)
    (hfilled : W.GetCandidates.all (fun t => !t.GetCandidates.isEmpty) = true) :
    W.towerFilled = true := by
  unfold Candidate.towerFilled
  rw [hW] at hfilled ⊢
  simp only [hfilled, Bool.or_true]

theorem towerKeyed_reflag (K : Kinematics) (f : Candidate → Bool) (ts : List Candidate) :
    Spec.towerKeyed K (ts.map (fun t =>
      Candidate.mk t.data (match t.GetCandidates with
        | [] => []
        | l :: more => l.withIsPU (f l) :: more))) = Spec.towerKeyed K ts := by
  induction ts with
  | nil => rfl
  | cons t rest ih =>
    unfold Spec.towerKeyed at ih ⊢
    rw [List.map_cons, List.flatMap_cons, List.flatMap_cons, ih]
    congr 1
    cases hc : t.GetCandidates with
    | nil => simp [Candidate.GetCandidates]
    | cons l more =>
      simp [Candidate.GetCandidates, Candidate.IsPU, Candidate.data, Candidate.withIsPU,
        Candidate.Momentum]

/-- C2: in `FillParticlesCustom`, a tower constituent files, for each of its
entries `t` in stored order, the momentum of `t`'s first child under `t`'s own
pile-up flag (secondary list when set, primary list otherwise); the flag of the
first child is not read, so changing it changes neither list.  A tower entry
with `IsPU = true` whose Leaf has `IsPU = false` adds the Leaf's momentum to
the secondary sum and nothing to the primary sum. -/
theorem FillParticlesCustom_tower_key (K : Kinematics) (s : AttrState) (W first : Candidate)
    (rest : List Candidate) (hW : W.GetCandidates = first :: rest)
    (hfirst : first.GetCandidates.length ≠ 0)
    (hfilled : W.GetCandidates.all (fun t => !t.GetCandidates.isEmpty) = true) :
    FillParticlesCustom.body K s W =
        some ⟨s.array ++ Spec.towerLeaves W.GetCandidates,
          (Spec.momenta false (Spec.towerKeyed K W.GetCandidates)).foldl pushIfAbsent s.hard,
          (Spec.momenta true (Spec.towerKeyed K W.GetCandidates)).foldl pushIfAbsent s.soft⟩ ∧
    (∀ (s1 : AttrState) (t l : Candidate) (more : List Candidate),
      t ∈ W.GetCandidates → t.GetCandidates = l :: more →
      FillParticlesCustom.towerBody K s1 t =
        some ⟨s1.array ++ [l],
          if t.IsPU then s1.hard else pushIfAbsent s1.hard (K.rebuild l.Momentum),
          if t.IsPU then pushIfAbsent s1.soft (K.rebuild l.Momentum) else s1.soft⟩) ∧
    (∀ f : Candidate → Bool,
      (FillParticlesCustom.body K s (W.reflagLeaves f)).map (fun r => (r.hard, r.soft)) =
        (FillParticlesCustom.body K s W).map (fun r => (r.hard, r.soft))) ∧
    (∀ (dObj dW dt dl : CandidateData) (array : TRefArray),
      dt.IsPU = true → dl.IsPU = false →
      FillParticlesCustom K
          (Candidate.mk dObj [Candidate.mk dW [Candidate.mk dt [Candidate.mk dl []]]]) array =
        some ((K.SetPtEtaPhiE 0 0 0 0, K.SetPtEtaPhiE 0 0 0 0 + K.rebuild dl.Momentum),
          [Candidate.mk dl []])) := by
  have hall := hfilled
  have hbody : FillParticlesCustom.body K s W =
      some ⟨s.array ++ Spec.towerLeaves W.GetCandidates,
        (Spec.momenta false (Spec.towerKeyed K W.GetCandidates)).foldl pushIfAbsent s.hard,
        (Spec.momenta true (Spec.towerKeyed K W.GetCandidates)).foldl pushIfAbsent s.soft⟩ := by
    unfold FillParticlesCustom.body
    rw [hW]
    simp only [hfirst, if_false]
    rw [← hW]
    exact FillParticlesCustom_tower_eq K _ s hall
  refine ⟨hbody, ?_, ?_, ?_⟩
  · intro s1 t l more _ ht
    cases hpu : t.IsPU <;>
      simp [FillParticlesCustom.towerBody, ht, TRefArray.Add, AttrState.file, hpu]
  · intro f
    rw [hbody]
    have hW2 : (W.reflagLeaves f).GetCandidates =
        W.GetCandidates.map (fun t =>
          Candidate.mk t.data (match t.GetCandidates with
            | [] => []
            | l :: more => l.withIsPU (f l) :: more)) := rfl
    have hall2 : (W.reflagLeaves f).GetCandidates.all (fun t => !t.GetCandidates.isEmpty)
        = true := by
      rw [hW2, List.all_eq_true]
      intro t ht
      rw [List.mem_map] at ht
      obtain ⟨t0, ht0, rfl⟩ := ht
      have := List.all_eq_true.mp hfilled t0 ht0
      cases hc : t0.GetCandidates with
      | nil => simp [hc] at this
      | cons a b => rfl
    have hfirst2 : ∃ first2 rest2, (W.reflagLeaves f).GetCandidates = first2 :: rest2 ∧
        first2.GetCandidates.length ≠ 0 := by
      rw [hW2, hW, List.map_cons]
      refine ⟨_, _, rfl, ?_⟩
      cases hc : first.GetCandidates with
      | nil => simp [hc] at hfirst
      | cons a b => simp [Candidate.GetCandidates]
    obtain ⟨first2, rest2, hW3, hfirst3⟩ := hfirst2
    have hbody2 : FillParticlesCustom.body K s (W.reflagLeaves f) =
        FillParticlesCustom.tower K s (W.reflagLeaves f).GetCandidates := by
      unfold FillParticlesCustom.body
      rw [hW3]
      simp only [hfirst3, if_false]
    rw [hbody2, FillParticlesCustom_tower_eq K _ s hall2, hW2, towerKeyed_reflag]
    rfl
  · intro dObj dW dt dl array hdt hdl
    simp [FillParticlesCustom, FillParticlesCustom.loop, FillParticlesCustom.body,
      FillParticlesCustom.tower, FillParticlesCustom.towerBody, Candidate.GetCandidates,
      TRefArray.Add, TRefArray.Clear, AttrState.file, Candidate.IsPU, Candidate.data, hdt,
      pushIfAbsent, sumInto, Candidate.Momentum]

theorem FillParticlesCustom_tower_key_witness :
    FillParticlesCustom.body Kinematics.axis ⟨[], [], []⟩ Example.mixedTower =
      some ⟨[Example.leaf 1 false 4 ⟨4, 0, 0, 4⟩, Example.leaf 2 true 6 ⟨6, 0, 0, 6⟩],
        [⟨6, 0, 0, 6⟩], [⟨4, 0, 0, 4⟩]⟩ :=
  (FillParticlesCustom_tower_key Kinematics.axis ⟨[], [], []⟩ Example.mixedTower
    (Example.node 11 true [Example.leaf 1 false 4 ⟨4, 0, 0, 4⟩])
    [Example.node 12 false [Example.leaf 2 true 6 ⟨6, 0, 0, 6⟩]] rfl (by decide) (by decide)).1

/-- C3: in `FillParticlesCustom`, a Leaf constituent is filed under its own
pile-up flag, and a TrackLike constituent files the momentum of its child
Leaf under that Leaf's flag; the flag of the TrackLike node itself is not
read.  A TrackLike constituent with `IsPU = true` whose Leaf has
`IsPU = false` adds the Leaf's momentum to the primary sum. -/
theorem FillParticlesCustom_leaf_track_key (K : Kinematics) (s : AttrState) (c : Candidate) :
    (c.GetCandidates = [] →
      FillParticlesCustom.body K s c =
        some ⟨s.array ++ [c],
          if c.IsPU then s.hard else pushIfAbsent s.hard (K.rebuild c.Momentum),
          if c.IsPU then pushIfAbsent s.soft (K.rebuild c.Momentum) else s.soft⟩) ∧
    (∀ (l : Candidate) (more : List Candidate),
      c.GetCandidates = l :: more → l.GetCandidates = [] →
      FillParticlesCustom.body K s c =
        some ⟨s.array ++ [l],
          if l.IsPU then s.hard else pushIfAbsent s.hard (K.rebuild l.Momentum),
          if l.IsPU then pushIfAbsent s.soft (K.rebuild l.Momentum) else s.soft⟩ ∧
      ∀ b : Bool, FillParticlesCustom.body K s (c.withIsPU b) = FillParticlesCustom.body K s c) ∧
    (∀ (dObj dT dl : CandidateData) (array : TRefArray),
      dT.IsPU = true → dl.IsPU = false →
      FillParticlesCustom K (Candidate.mk dObj [Candidate.mk dT [Candidate.mk dl []]]) array =
        some ((K.SetPtEtaPhiE 0 0 0 0 + K.rebuild dl.Momentum, K.SetPtEtaPhiE 0 0 0 0),
          [Candidate.mk dl []])) := by
  refine ⟨?_, ?_, ?_⟩
  · intro hc
    cases hpu : c.IsPU <;>
      simp [FillParticlesCustom.body, hc, TRefArray.Add, AttrState.file, hpu]
  · intro l more hc hl
    constructor
    · cases hpu : l.IsPU <;>
        simp [FillParticlesCustom.body, hc, hl, TRefArray.Add, AttrState.file, hpu]
    · intro b
      have hcb : (c.withIsPU b).GetCandidates = l :: more := by
        simp [Candidate.withIsPU, Candidate.GetCandidates, ← hc]
      simp [FillParticlesCustom.body, hc, hcb, hl]
  · intro dObj dT dl array _ hdl
    simp [FillParticlesCustom, FillParticlesCustom.loop, FillParticlesCustom.body,
      Candidate.GetCandidates, TRefArray.Add, TRefArray.Clear, AttrState.file, Candidate.IsPU,
      Candidate.data, hdl, pushIfAbsent, sumInto, Candidate.Momentum]

theorem FillParticlesCustom_leaf_track_key_witness :
    FillParticlesCustom.body Kinematics.axis ⟨[], [], []⟩
        (Example.node 20 true [Example.leaf 1 false 5 ⟨5, 0, 0, 5⟩]) =
      some ⟨[Example.leaf 1 false 5 ⟨5, 0, 0, 5⟩], [⟨5, 0, 0, 5⟩], []⟩ :=
  ((FillParticlesCustom_leaf_track_key Kinematics.axis ⟨[], [], []⟩
    (Example.node 20 true [Example.leaf 1 false 5 ⟨5, 0, 0, 5⟩])).2.1
      (Example.leaf 1 false 5 ⟨5, 0, 0, 5⟩) [] rfl rfl).1

theorem runMax_map {α β : Type} (store : ℚ → ℚ) (g : α → β) (best : α × ℚ)
    (xs : List (ℚ × α)) :
    runMax store (g best.1, best.2) (xs.map (fun x => (x.1, g x.2))) =
      (g (runMax store best xs).1, (runMax store best xs).2) := by
  induction xs generalizing best with
  | nil => rfl
  | cons x rest ih =>
    obtain ⟨pt, a⟩ := x
    simp only [List.map_cons, runMax]
    by_cases h : pt > best.2
    · simp only [h, if_true]
      exact ih (a, store pt)
    · simp only [h, if_false]
      exact ih best

theorem runMax_keep {α : Type} (store : ℚ → ℚ) (xs : List (ℚ × α)) (best : α × ℚ)
    (h : ∀ x ∈ xs, x.1 ≤ best.2) : runMax store best xs = best := by
  induction xs with
  | nil => rfl
  | cons x rest ih =>
    obtain ⟨pt, a⟩ := x
    have hpt : ¬ pt > best.2 := not_lt.2 (h (pt, a) (List.mem_cons_self _ _))
    simp only [runMax, hpt, if_false]
    exact ih (fun y hy => h y (List.mem_cons_of_mem _ hy))

theorem runMax_last {α : Type} (store : ℚ → ℚ) (xs : List (ℚ × α)) (best : α × ℚ) :
    (runMax store best xs = best ∧ ∀ x ∈ xs, x.1 ≤ best.2) ∨
    (∃ (i : ℕ) (w : ℚ × α), xs[i]? = some w ∧ runMax store best xs = (w.2, store w.1) ∧
      (runMax store best (xs.take i)).2 < w.1 ∧
      ∀ (j : ℕ) (x : ℚ × α), i < j → xs[j]? = some x → x.1 ≤ store w.1) := by
  induction xs generalizing best with
  | nil => exact Or.inl ⟨rfl, by simp⟩
  | cons x rest ih =>
    obtain ⟨pt, a⟩ := x
    simp only [runMax]
    by_cases h : pt > best.2
    · simp only [h, if_true]
      rcases ih (a, store pt) with ⟨heq, hle⟩ | ⟨i, w, hi, heq, hbefore, hafter⟩
      · refine Or.inr ⟨0, (pt, a), by simp, heq, by simpa [runMax] using h, ?_⟩
        intro j x hj hx
        cases j with
        | zero => exact absurd hj (Nat.lt_irrefl 0)
        | succ j =>
          simp only [List.getElem?_cons_succ] at hx
          exact hle x (List.getElem?_mem hx)
      · refine Or.inr ⟨i + 1, w, by simpa using hi, heq, ?_, ?_⟩
        · simp only [List.take_succ_cons, runMax, h, if_true]
          exact hbefore
        · intro j x hj hx
          cases j with
          | zero => exact absurd hj (Nat.not_lt_zero _)
          | succ j =>
            simp only [List.getElem?_cons_succ] at hx
            exact hafter j x (Nat.lt_of_succ_lt_succ hj) hx
    · simp only [h, if_false]
      have hpt : pt ≤ best.2 := not_lt.1 h
      rcases ih best with ⟨heq, hle⟩ | ⟨i, w, hi, heq, hbefore, hafter⟩
      · refine Or.inl ⟨heq, ?_⟩
        intro x hx
        rcases List.mem_cons.1 hx with rfl | hx
        · exact hpt
        · exact hle x hx
      · refine Or.inr ⟨i + 1, w, by simpa using hi, heq, ?_, ?_⟩
        · simp only [List.take_succ_cons, runMax, h, if_false]
          exact hbefore
        · intro j x hj hx
          cases j with
          | zero => exact absurd hj (Nat.not_lt_zero _)
          | succ j =>
            simp only [List.getElem?_cons_succ] at hx
            exact hafter j x (Nat.lt_of_succ_lt_succ hj) hx

theorem scoreAfter_eq {α : Type} (K : Kinematics) (g : Candidate → α) (p : α)
    (ls : List Candidate) :
    (runMax K.toFloat (p, (0 : ℚ)) (ls.map (fun l => (K.Pt l.Momentum, g l)))).2 =
      scoreAfter K ls := by
  have h := runMax_map K.toFloat (fun _ : α => ()) (p, (0 : ℚ))
    (ls.map (fun l => (K.Pt l.Momentum, g l)))
  rw [List.map_map] at h
  unfold scoreAfter
  exact (congrArg Prod.snd h).symm

/-- The Leaf the tower loop leaves in `maxpart`, for any payload recorded for
it: when some Leaf has `Pt() > 0` it is the Leaf `w` at the one position where
`Pt()` exceeds the score stored by the Leaves before it and no later Leaf has a
`Pt()` above the score stored for `w`. -/
theorem runMax_tower {α : Type} (K : Kinematics) (g : Candidate → α) (p : α)
    (ls : List Candidate) (hpos : ∃ l ∈ ls, 0 < K.Pt l.Momentum) :
    ∃ (i : ℕ) (w : Candidate), ls[i]? = some w ∧
      runMax K.toFloat (p, (0 : ℚ)) (ls.map (fun l => (K.Pt l.Momentum, g l))) =
        (g w, K.toFloat (K.Pt w.Momentum)) ∧
      scoreAfter K (ls.take i) < K.Pt w.Momentum ∧
      ∀ (j : ℕ) (l : Candidate), i < j → ls[j]? = some l →
        K.Pt l.Momentum ≤ K.toFloat (K.Pt w.Momentum) := by
  obtain ⟨l0, hl0, hpos⟩ := hpos
  rcases runMax_last K.toFloat (ls.map (fun l => (K.Pt l.Momentum, g l))) (p, (0 : ℚ)) with
    ⟨_, hle⟩ | ⟨i, w, hi, hrun, hbefore, hafter⟩
  · exfalso
    have := hle (K.Pt l0.Momentum, g l0) (List.mem_map.2 ⟨l0, hl0, rfl⟩)
    simp only at this
    linarith
  · rw [List.getElem?_map] at hi
    cases hci : ls[i]? with
    | none => simp [hci] at hi
    | some c =>
      rw [hci] at hi
      simp only [Option.map_some', Option.some.injEq] at hi
      subst hi
      refine ⟨i, c, hci, hrun, ?_, ?_⟩
      · rw [← List.map_take, scoreAfter_eq] at hbefore
        exact hbefore
      · intro j c2 hj hc2
        exact hafter j (K.Pt c2.Momentum, g c2) hj (by rw [List.getElem?_map, hc2]; rfl)

theorem runMax_spec {α : Type} (store : ℚ → ℚ) (xs : List (ℚ × α)) (best : α × ℚ)
    (hfix : ∀ x ∈ xs, store x.1 = x.1) :
    (runMax store best xs = best ∧ ∀ x ∈ xs, x.1 ≤ best.2) ∨
    (∃ (i : ℕ) (w : ℚ × α), xs[i]? = some w ∧ runMax store best xs = (w.2, w.1) ∧
      best.2 < w.1 ∧
      (∀ x ∈ xs, x.1 ≤ w.1) ∧ ∀ (j : ℕ) (x : ℚ × α), j < i → xs[j]? = some x → x.1 < w.1) := by
  induction xs generalizing best with
  | nil => exact Or.inl ⟨rfl, by simp⟩
  | cons x rest ih =>
    obtain ⟨pt, a⟩ := x
    have hhead : store pt = pt := hfix (pt, a) (List.mem_cons_self _ _)
    have hrest : ∀ x ∈ rest, store x.1 = x.1 := fun y hy => hfix y (List.mem_cons_of_mem _ hy)
    simp only [runMax, hhead]
    by_cases h : pt > best.2
    · simp only [h, if_true]
      rcases ih (a, pt) hrest with ⟨heq, hle⟩ | ⟨i, w, hi, heq, hlt, hle, hbefore⟩
      · refine Or.inr ⟨0, (pt, a), by simp, heq, h, ?_, ?_⟩
        · intro x hx
          rcases List.mem_cons.1 hx with rfl | hx
          · exact le_refl _
          · exact hle x hx
        · intro j x hj
          exact absurd hj (Nat.not_lt_zero j)
      · refine Or.inr ⟨i + 1, w, by simpa using hi, heq, lt_trans h hlt, ?_, ?_⟩
        · intro x hx
          rcases List.mem_cons.1 hx with rfl | hx
          · exact le_of_lt hlt
          · exact hle x hx
        · intro j x hj hx
          cases j with
          | zero =>
            simp only [List.getElem?_cons_zero, Option.some.injEq] at hx
            rw [← hx]
            exact hlt
          | succ j =>
            simp only [List.getElem?_cons_succ] at hx
            exact hbefore j x (Nat.lt_of_succ_lt_succ hj) hx
    · simp only [h, if_false]
      have hpt : pt ≤ best.2 := not_lt.1 h
      rcases ih best hrest with ⟨heq, hle⟩ | ⟨i, w, hi, heq, hlt, hle, hbefore⟩
      · refine Or.inl ⟨heq, ?_⟩
        intro x hx
        rcases List.mem_cons.1 hx with rfl | hx
        · exact hpt
        · exact hle x hx
      · refine Or.inr ⟨i + 1, w, by simpa using hi, heq, hlt, ?_, ?_⟩
        · intro x hx
          rcases List.mem_cons.1 hx with rfl | hx
          · exact le_of_lt (lt_of_le_of_lt hpt hlt)
          · exact hle x hx
        · intro j x hj hx
          cases j with
          | zero =>
            simp only [List.getElem?_cons_zero, Option.some.injEq] at hx
            rw [← hx]
            exact lt_of_le_of_lt hpt hlt
          | succ j =>
            simp only [List.getElem?_cons_succ] at hx
            exact hbefore j x (Nat.lt_of_succ_lt_succ hj) hx

theorem leadStep_map {α β : Type} (g : α → β) (payload : Candidate → α) (K : Kinematics)
    (best : α × ℚ) (c : Candidate) :
    leadStep (fun l => g (payload l)) K (g best.1, best.2) c =
      (g (leadStep payload K best c).1, (leadStep payload K best c).2) := by
  unfold leadStep
  cases Spec.classify c with
  | Leaf => exact runMax_map id g best [(c.PT, payload c)]
  | TrackLike => rfl
  | TowerLike =>
    have := runMax_map K.toFloat g (best.1, 0)
      ((Spec.towerLeaves c.GetCandidates).map (fun l => (K.Pt l.Momentum, payload l)))
    simpa [List.map_map, Function.comp_def] using this

theorem foldl_leadStep_map {α β : Type} (g : α → β) (payload : Candidate → α) (K : Kinematics)
    (cs : List Candidate) (best : α × ℚ) :
    cs.foldl (leadStep (fun l => g (payload l)) K) (g best.1, best.2) =
      (g (cs.foldl (leadStep payload K) best).1, (cs.foldl (leadStep payload K) best).2) := by
  induction cs generalizing best with
  | nil => rfl
  | cons c rest ih =>
    simp only [List.foldl_cons]
    rw [leadStep_map, ih]

/-! ## `findGenParticleCustom` as a running maximum over the constituents -/

theorem findGenParticleCustom_tower_eq (K : Kinematics) (ts : List Candidate) (s : LeadState)
    (h : ts.all (fun t => !t.GetCandidates.isEmpty) = true) :
    findGenParticleCustom.tower K s ts =
      some ⟨s.array ++ Spec.towerLeaves ts,
        (runMax K.toFloat (s.maxpart, s.maxpt)
          ((Spec.towerLeaves ts).map (fun l => (K.Pt l.Momentum, K.rebuild l.Momentum)))).1,
        (runMax K.toFloat (s.maxpart, s.maxpt)
          ((Spec.towerLeaves ts).map (fun l => (K.Pt l.Momentum, K.rebuild l.Momentum)))).2,
        s.hard, s.soft⟩ := by
  induction ts generalizing s with
  | nil => simp [findGenParticleCustom.tower, Spec.towerLeaves, runMax]
  | cons t rest ih =>
    simp only [List.all_cons, Bool.and_eq_true] at h
    obtain ⟨ht, hrest⟩ := h
    cases hc : t.GetCandidates with
    | nil => simp [hc] at ht
    | cons l more =>
      have hl : Spec.towerLeaves (t :: rest) = l :: Spec.towerLeaves rest := by
        simp [Spec.towerLeaves, hc]
      rw [hl]
      simp only [findGenParticleCustom.tower, findGenParticleCustom.towerBody, hc,
        List.head?_cons, TRefArray.Add, List.map_cons, runMax]
      by_cases hgt : K.Pt l.Momentum > s.maxpt
      · simp only [hgt, if_true]
        rw [ih _ hrest]
        simp
      · simp only [hgt, if_false]
        rw [ih _ hrest]
        simp

theorem findGenParticleCustom_body_eq (K : Kinematics) (c : Candidate) (s : LeadState)
    (h : c.towerFilled = true) :
    ∃ hard soft : List TLorentzVector,
      findGenParticleCustom.body K s c =
        some ⟨s.array ++ Spec.emission c,
          (leadStep (fun l => K.rebuild l.Momentum) K (s.maxpart, s.maxpt) c).1,
          (leadStep (fun l => K.rebuild l.Momentum) K (s.maxpart, s.maxpt) c).2,
          hard, soft⟩ := by
  unfold findGenParticleCustom.body Spec.emission leadStep Spec.classify
  unfold Candidate.towerFilled at h
  cases hc : c.GetCandidates with
  | nil =>
    simp only [findGenParticleCustom.particle, TRefArray.Add, runMax]
    by_cases hgt : c.PT > s.maxpt <;> cases hpu : c.IsPU <;> simp [hgt]
  | cons first rest =>
    rw [hc] at h
    by_cases hf : first.GetCandidates.length = 0
    · exact ⟨s.hard, s.soft, by simp [hf, TRefArray.Add]⟩
    · have hf2 : first.GetCandidates.isEmpty = false := by
        cases hfc : first.GetCandidates with
        | nil => simp [hfc] at hf
        | cons a b => rfl
      simp only [hf2, Bool.false_or] at h
      refine ⟨s.hard, s.soft, ?_⟩
      simp only [hf, if_false]
      rw [findGenParticleCustom_tower_eq K _ _ h]

theorem findGenParticleCustom_loop_eq (K : Kinematics) (cs : List Candidate) (s : LeadState)
    (h : cs.all Candidate.towerFilled = true) :
    ∃ hard soft : List TLorentzVector,
      findGenParticleCustom.loop K s cs =
        some ⟨s.array ++ cs.flatMap Spec.emission,
          (cs.foldl (leadStep (fun l => K.rebuild l.Momentum) K) (s.maxpart, s.maxpt)).1,
          (cs.foldl (leadStep (fun l => K.rebuild l.Momentum) K) (s.maxpart, s.maxpt)).2,
          hard, soft⟩ := by
  induction cs generalizing s with
  | nil => exact ⟨s.hard, s.soft, by simp [findGenParticleCustom.loop]⟩
  | cons c rest ih =>
    simp only [List.all_cons, Bool.and_eq_true] at h
    obtain ⟨hc, hrest⟩ := h
    obtain ⟨hard1, soft1, hb⟩ := findGenParticleCustom_body_eq K c s hc
    obtain ⟨hard2, soft2, hl⟩ := ih ⟨s.array ++ Spec.emission c,
      (leadStep (fun l => K.rebuild l.Momentum) K (s.maxpart, s.maxpt) c).1,
      (leadStep (fun l => K.rebuild l.Momentum) K (s.maxpart, s.maxpt) c).2, hard1, soft1⟩ hrest
    refine ⟨hard2, soft2, ?_⟩
    simp only [findGenParticleCustom.loop, hb, hl, List.flatMap_cons, List.foldl_cons,
      List.append_assoc]

theorem findGenParticleCustom_eq (K : Kinematics) (obj : Candidate) (array : TRefArray)
    (h : obj.derefOK = true) :
    findGenParticleCustom K obj array =
      some (leadingMomentum K (leadingLeaf K obj), Spec.flatten obj) := by
  obtain ⟨hard, soft, hl⟩ :=
    findGenParticleCustom_loop_eq K obj.GetCandidates (findGenParticleCustom.init array) h
  have hmap := foldl_leadStep_map (leadingMomentum K) some K obj.GetCandidates (none, -1)
  unfold findGenParticleCustom
  rw [hl]
  simp only [findGenParticleCustom.init, TRefArray.Clear, List.nil_append, Spec.flatten,
    leadingLeaf]
  have hfst := congrArg Prod.fst hmap
  simp only [leadingMomentum] at hfst ⊢
  rw [← hfst]

/-! ## The loop body of `ProcessParticleFlowCandidates` -/

theorem ProcessParticleFlowCandidates_body_eq (K : Kinematics) (obj first : Candidate)
    (rest : List Candidate) (h : obj.derefOK = true) (hcs : obj.GetCandidates = first :: rest) :
    ∃ hard soft : TLorentzVector,
      FillParticlesCustom K obj (Spec.flatten obj) = some ((hard, soft), Spec.flatten obj) ∧
      ProcessParticleFlowCandidates.body K obj =
        some {
          X := first.Position.Px
          Y := first.Position.Py
          Z := first.Position.Pz
          leadingGenPart_PT := K.Pt (leadingMomentum K (leadingLeaf K obj))
          leadingGenPart_Eta := K.Eta (leadingMomentum K (leadingLeaf K obj))
          leadingGenPart_Phi := K.Phi (leadingMomentum K (leadingLeaf K obj))
          leadingGenPart_E := (leadingMomentum K (leadingLeaf K obj)).E
          Particles := Spec.flatten obj
          hardfrac := Fraction.div hard.E (hard.E + soft.E)
          pufrac := Fraction.div soft.E (hard.E + soft.E) } := by
  refine ⟨_, _, FillParticlesCustom_eq K obj _ h, ?_⟩
  have hhead : obj.GetCandidates.head? = some first := by rw [hcs]; rfl
  unfold ProcessParticleFlowCandidates.body
  rw [hhead]
  simp only
  rw [findGenParticleCustom_eq K obj [] h]
  simp only
  rw [FillParticlesCustom_eq K obj _ h]

/-! ## Objects whose constituents are all Leaves -/

theorem derefOK_of_leaves (obj : Candidate)
    (hleaves : obj.GetCandidates.all (fun c => c.GetCandidates.isEmpty) = true) :
    obj.derefOK = true := by
  unfold Candidate.derefOK
  rw [List.all_eq_true] at hleaves ⊢
  intro c hc
  have := hleaves c hc
  unfold Candidate.towerFilled
  cases hcc : c.GetCandidates with
  | nil => rfl
  | cons a b => simp [hcc] at this

theorem flatMap_emission_leaves (cs : List Candidate)
    (hleaves : cs.all (fun c => c.GetCandidates.isEmpty) = true) :
    cs.flatMap Spec.emission = cs := by
  induction cs with
  | nil => rfl
  | cons c rest ih =>
    simp only [List.all_cons, Bool.and_eq_true] at hleaves
    obtain ⟨hc, hrest⟩ := hleaves
    have hcc : c.GetCandidates = [] := by
      cases h : c.GetCandidates with
      | nil => rfl
      | cons a b => simp [h] at hc
    simp [List.flatMap_cons, ih hrest, Spec.emission, Spec.classify, hcc]

/-- C6: for an object with no constituents `FillParticlesCustom` returns two
zero sums and the division of the zero energies is NaN, but the loop body of
`ProcessParticleFlowCandidates` reads the position of the first constituent
before it calls `FillParticlesCustom`, so processing the object fails on the
null pointer. -/
theorem ProcessParticleFlowCandidates_no_constituents (K : Kinematics) (d : CandidateData)
    (array : TRefArray) :
    FillParticlesCustom K (Candidate.mk d []) array =
      some ((K.SetPtEtaPhiE 0 0 0 0, K.SetPtEtaPhiE 0 0 0 0), []) ∧
    Fraction.div (0 : TLorentzVector).E ((0 : TLorentzVector).E + (0 : TLorentzVector).E)
      = Fraction.nan ∧
    ProcessParticleFlowCandidates.body K (Candidate.mk d []) = none ∧
    ProcessParticleFlowCandidates K [Candidate.mk d []] = none := by
  refine ⟨rfl, ?_, rfl, rfl⟩
  simp [Fraction.div, TLorentzVector_zero_E]

/-! ## The leading particle -/

theorem runMax_cons {α : Type} (store : ℚ → ℚ) (best : α × ℚ) (x : ℚ × α)
    (xs : List (ℚ × α)) :
    runMax store best (x :: xs) = runMax store (runMax store best [x]) xs := by
  obtain ⟨pt, a⟩ := x
  simp [runMax]

theorem foldl_leadStep_leaves {α : Type} (payload : Candidate → α) (K : Kinematics)
    (cs : List Candidate) (best : α × ℚ)
    (hleaves : cs.all (fun c => c.GetCandidates.isEmpty) = true) :
    cs.foldl (leadStep payload K) best =
      runMax id best (cs.map (fun c => (c.PT, payload c))) := by
  induction cs generalizing best with
  | nil => rfl
  | cons c rest ih =>
    simp only [List.all_cons, Bool.and_eq_true] at hleaves
    obtain ⟨hc, hrest⟩ := hleaves
    have hcc : c.GetCandidates = [] := by
      cases h : c.GetCandidates with
      | nil => rfl
      | cons a b => simp [h] at hc
    have hstep : leadStep payload K best c = runMax id best [(c.PT, payload c)] := by
      simp [leadStep, Spec.classify, hcc]
    rw [List.foldl_cons, ih _ hrest, hstep, List.map_cons]
    exact (runMax_cons id best _ _).symm

theorem leadStep_tower {α : Type} (payload : Candidate → α) (K : Kinematics) (best : α × ℚ)
    (W first : Candidate) (rest : List Candidate) (hW : W.GetCandidates = first :: rest)
    (hfirst : first.GetCandidates.length ≠ 0) :
    leadStep payload K best W =
      runMax K.toFloat (best.1, 0)
        ((Spec.towerLeaves W.GetCandidates).map (fun l => (K.Pt l.Momentum, payload l))) := by
  simp [leadStep, Spec.classify, hW, hfirst]

theorem leadStep_track {α : Type} (payload : Candidate → α) (K : Kinematics) (best : α × ℚ)
    (c l : Candidate) (more : List Candidate) (hc : c.GetCandidates = l :: more)
    (hl : l.GetCandidates = []) :
    leadStep payload K best c = best := by
  simp [leadStep, Spec.classify, hc, hl]

theorem derefOK_mk (d : CandidateData) (cs : List Candidate) :
    (Candidate.mk d cs).derefOK = cs.all Candidate.towerFilled := rfl

/-- C7: on a non-empty list of Leaf constituents with non-negative cached
`PT`, `findGenParticleCustom` returns the rebuilt momentum of the Leaf with the
greatest cached `PT`, the first such Leaf on ties; it is that Leaf's momentum
when the kinematics round-trip it.  For `[Leaf(pt=3), Leaf(pt=7), Leaf(pt=1)]`
it is the `pt = 7` Leaf. -/
theorem findGenParticleCustom_flat (K : Kinematics) (obj : Candidate) (array : TRefArray)
    (hne : obj.GetCandidates ≠ [])
    (hleaves : obj.GetCandidates.all (fun c => c.GetCandidates.isEmpty) = true)
    (hpt : obj.GetCandidates.all (fun c => decide (0 ≤ c.PT)) = true) :
    (∃ (i : ℕ) (w : Candidate), obj.GetCandidates[i]? = some w ∧
      findGenParticleCustom K obj array = some (K.rebuild w.Momentum, obj.GetCandidates) ∧
      (K.RoundTrip w.Momentum →
        findGenParticleCustom K obj array = some (w.Momentum, obj.GetCandidates)) ∧
      (∀ c ∈ obj.GetCandidates, c.PT ≤ w.PT) ∧
      (∀ (j : ℕ) (c : Candidate), j < i → obj.GetCandidates[j]? = some c → c.PT < w.PT)) ∧
    (∀ (dObj d1 d2 d3 : CandidateData), d1.PT = 3 → d2.PT = 7 → d3.PT = 1 →
      findGenParticleCustom K
          (Candidate.mk dObj [Candidate.mk d1 [], Candidate.mk d2 [], Candidate.mk d3 []]) array =
        some (K.rebuild d2.Momentum,
          [Candidate.mk d1 [], Candidate.mk d2 [], Candidate.mk d3 []])) := by
  constructor
  · have hok := derefOK_of_leaves obj hleaves
    have heq := findGenParticleCustom_eq K obj array hok
    simp only [Spec.flatten, flatMap_emission_leaves _ hleaves] at heq
    have hlead : leadingLeaf K obj =
        (runMax id ((none : Option Candidate), (-1 : ℚ))
          (obj.GetCandidates.map (fun c => (c.PT, some c)))).1 := by
      unfold leadingLeaf
      rw [foldl_leadStep_leaves some K _ _ hleaves]
    rcases runMax_spec id (obj.GetCandidates.map (fun c => (c.PT, some c)))
      ((none : Option Candidate), (-1 : ℚ)) (fun _ _ => rfl)
      with ⟨_, hle⟩ | ⟨i, w, hi, hrun, _, hle, hbefore⟩
    · exfalso
      cases hcs : obj.GetCandidates with
      | nil => exact hne hcs
      | cons c rest =>
        rw [hcs] at hle hpt
        have h1 := hle (c.PT, some c) (by simp)
        simp only [List.all_cons, Bool.and_eq_true, decide_eq_true_eq] at hpt
        have h2 := hpt.1
        simp only at h1
        linarith
    · rw [List.getElem?_map] at hi
      cases hci : obj.GetCandidates[i]? with
      | none => simp [hci] at hi
      | some c =>
        rw [hci] at hi
        simp only [Option.map_some', Option.some.injEq] at hi
        subst hi
        rw [hlead, hrun] at heq
        simp only [leadingMomentum] at heq
        refine ⟨i, c, hci, heq, ?_, ?_, ?_⟩
        · intro hrt
          rw [heq, hrt]
        · intro c2 hc2
          exact hle (c2.PT, some c2) (List.mem_map.2 ⟨c2, hc2, rfl⟩)
        · intro j c2 hj hc2
          exact hbefore j (c2.PT, some c2) hj (by rw [List.getElem?_map, hc2]; rfl)
  · intro dObj d1 d2 d3 h1 h2 h3
    have hok : (Candidate.mk dObj
        [Candidate.mk d1 [], Candidate.mk d2 [], Candidate.mk d3 []]).derefOK = true := rfl
    rw [findGenParticleCustom_eq K _ array hok]
    have hl : leadingLeaf K (Candidate.mk dObj
        [Candidate.mk d1 [], Candidate.mk d2 [], Candidate.mk d3 []]) = some (Candidate.mk d2 []) := by
      simp only [leadingLeaf, Candidate.GetCandidates, List.foldl_cons, List.foldl_nil, leadStep,
        Spec.classify, runMax, Candidate.PT, Candidate.data, h1, h2, h3]
      norm_num
    rw [hl]
    rfl

theorem findGenParticleCustom_flat_witness :
    findGenParticleCustom Kinematics.axis
        (Example.node 0 false
          [Example.leaf 1 false 3 ⟨3, 0, 0, 3⟩, Example.leaf 2 false 7 ⟨7, 0, 0, 7⟩,
           Example.leaf 3 false 1 ⟨1, 0, 0, 1⟩]) [] =
      some (⟨7, 0, 0, 7⟩,
        [Example.leaf 1 false 3 ⟨3, 0, 0, 3⟩, Example.leaf 2 false 7 ⟨7, 0, 0, 7⟩,
         Example.leaf 3 false 1 ⟨1, 0, 0, 1⟩]) :=
  (findGenParticleCustom_flat Kinematics.axis
    (Example.node 0 false
      [Example.leaf 1 false 3 ⟨3, 0, 0, 3⟩, Example.leaf 2 false 7 ⟨7, 0, 0, 7⟩,
       Example.leaf 3 false 1 ⟨1, 0, 0, 1⟩]) []
    (List.cons_ne_nil _ _) (by decide) (by decide)).2
      ⟨0, false, 0, 0, 0⟩ ⟨1, false, 3, ⟨3, 0, 0, 3⟩, 0⟩ ⟨2, false, 7, ⟨7, 0, 0, 7⟩, 0⟩
      ⟨3, false, 1, ⟨1, 0, 0, 1⟩, 0⟩ rfl rfl rfl

/-- C8, counterexample: after a Leaf with cached `PT` 9, a last tower whose
only Leaf has `Pt() = 0` wins no comparison, and `findGenParticleCustom`
returns the momentum of the earlier Leaf, not that of the tower's Leaf; and for
a last tower whose Leaves have `Pt()` 33554434 and 33554433 the score kept for
the first is its single-precision value 33554432, which the second exceeds, so
the Leaf returned is the second, not the one of greatest `Pt()`. -/
theorem findGenParticleCustom_last_tower_counterexample :
    (findGenParticleCustom Kinematics.axis Example.leafThenRestTower [] =
        some (⟨9, 0, 0, 9⟩,
          [Example.leaf 1 false 9 ⟨9, 0, 0, 9⟩, Example.leaf 4 false 0 ⟨0, 0, 0, 1⟩]) ∧
      Kinematics.axis.rebuild (Example.leaf 4 false 0 ⟨0, 0, 0, 1⟩).Momentum ≠ ⟨9, 0, 0, 9⟩) ∧
    (findGenParticleCustom Kinematics.axis Example.leafThenNarrowedTower [] =
        some (⟨33554433, 0, 0, 33554433⟩,
          [Example.leaf 6 false 9 ⟨9, 0, 0, 9⟩,
           Example.leaf 3 false 0 ⟨33554434, 0, 0, 33554434⟩,
           Example.leaf 5 false 0 ⟨33554433, 0, 0, 33554433⟩]) ∧
      Kinematics.axis.Pt (Example.leaf 5 false 0 ⟨33554433, 0, 0, 33554433⟩).Momentum <
        Kinematics.axis.Pt (Example.leaf 3 false 0 ⟨33554434, 0, 0, 33554434⟩).Momentum) := by
  refine ⟨⟨rfl, by decide⟩, rfl, by decide⟩

/-- C8, amended: when the last constituent is a tower each of whose entries
has a first child, and some Leaf of that tower has `Pt() > 0`, then
`findGenParticleCustom` returns the rebuilt momentum of a Leaf of that tower,
whatever the earlier constituents scored: the last Leaf whose `Pt()` exceeded
the score kept in the single-precision `maxpt`, so no later Leaf of the tower
has a `Pt()` above that Leaf's stored score.  When storing in single precision
changes the `Pt()` of no Leaf of the tower, it is the first Leaf of the tower
with the greatest `Pt()`.  When no Leaf of the tower has `Pt() > 0` it returns
what the earlier constituents left in `maxpart`.  For
`[Leaf(pt=9), TowerLike{TrackLike(leaf pt=2)}]` it is the tower's Leaf. -/
theorem findGenParticleCustom_last_tower (K : Kinematics) (d : CandidateData)
    (pre : List Candidate) (W first : Candidate) (rest : List Candidate) (array : TRefArray)
    (hpre : pre.all Candidate.towerFilled = true)
    (hW : W.GetCandidates = first :: rest) (hfirst : first.GetCandidates.length ≠ 0)
    (hfilled : W.GetCandidates.all (fun t => !t.GetCandidates.isEmpty) = true) :
    ((∃ l ∈ Spec.towerLeaves W.GetCandidates, 0 < K.Pt l.Momentum) →
      ∃ (i : ℕ) (w : Candidate), (Spec.towerLeaves W.GetCandidates)[i]? = some w ∧
        findGenParticleCustom K (Candidate.mk d (pre ++ [W])) array =
          some (K.rebuild w.Momentum, Spec.flatten (Candidate.mk d (pre ++ [W]))) ∧
        scoreAfter K ((Spec.towerLeaves W.GetCandidates).take i) < K.Pt w.Momentum ∧
        (∀ (j : ℕ) (l : Candidate), i < j → (Spec.towerLeaves W.GetCandidates)[j]? = some l →
          K.Pt l.Momentum ≤ K.toFloat (K.Pt w.Momentum))) ∧
    ((∀ l ∈ Spec.towerLeaves W.GetCandidates, K.Exact (K.Pt l.Momentum)) →
      (∃ l ∈ Spec.towerLeaves W.GetCandidates, 0 < K.Pt l.Momentum) →
      ∃ (i : ℕ) (w : Candidate), (Spec.towerLeaves W.GetCandidates)[i]? = some w ∧
        findGenParticleCustom K (Candidate.mk d (pre ++ [W])) array =
          some (K.rebuild w.Momentum, Spec.flatten (Candidate.mk d (pre ++ [W]))) ∧
        0 < K.Pt w.Momentum ∧
        (∀ l ∈ Spec.towerLeaves W.GetCandidates, K.Pt l.Momentum ≤ K.Pt w.Momentum) ∧
        (∀ (j : ℕ) (l : Candidate), j < i → (Spec.towerLeaves W.GetCandidates)[j]? = some l →
          K.Pt l.Momentum < K.Pt w.Momentum)) ∧
    ((∀ l ∈ Spec.towerLeaves W.GetCandidates, K.Pt l.Momentum ≤ 0) →
      ∃ p : TLorentzVector,
        findGenParticleCustom K (Candidate.mk d pre) array =
          some (p, Spec.flatten (Candidate.mk d pre)) ∧
        findGenParticleCustom K (Candidate.mk d (pre ++ [W])) array =
          some (p, Spec.flatten (Candidate.mk d (pre ++ [W])))) ∧
    (∀ (dObj dL dW dT dl : CandidateData), dL.PT = 9 → K.Pt dl.Momentum = 2 →
      findGenParticleCustom K
          (Candidate.mk dObj
            [Candidate.mk dL [], Candidate.mk dW [Candidate.mk dT [Candidate.mk dl []]]]) array =
        some (K.rebuild dl.Momentum, [Candidate.mk dL [], Candidate.mk dl []])) := by
  have hWf := towerFilled_of_tower W first rest hW hfilled
  have hok : (Candidate.mk d (pre ++ [W])).derefOK = true := by
    rw [derefOK_mk, List.all_append, hpre]
    simp [hWf]
  have hokpre : (Candidate.mk d pre).derefOK = true := hpre
  have heq := findGenParticleCustom_eq K (Candidate.mk d (pre ++ [W])) array hok
  have hlead : leadingLeaf K (Candidate.mk d (pre ++ [W])) =
      (runMax K.toFloat (leadingLeaf K (Candidate.mk d pre), (0 : ℚ))
        ((Spec.towerLeaves W.GetCandidates).map (fun l => (K.Pt l.Momentum, some l)))).1 := by
    unfold leadingLeaf
    simp only [Candidate.GetCandidates, List.foldl_append, List.foldl_cons, List.foldl_nil]
    rw [leadStep_tower some K _ W first rest hW hfirst]
    rfl
  refine ⟨?_, ?_, ?_, ?_⟩
  · intro hpos
    obtain ⟨i, w, hi, hrun, hbefore, hafter⟩ :=
      runMax_tower K some (leadingLeaf K (Candidate.mk d pre))
        (Spec.towerLeaves W.GetCandidates) hpos
    rw [hlead, hrun] at heq
    exact ⟨i, w, hi, heq, hbefore, hafter⟩
  · rintro hexact ⟨l0, hl0, hpos⟩
    rcases runMax_spec K.toFloat
      ((Spec.towerLeaves W.GetCandidates).map (fun l => (K.Pt l.Momentum, some l)))
      (leadingLeaf K (Candidate.mk d pre), (0 : ℚ))
      (by
        intro x hx
        obtain ⟨l, hl, rfl⟩ := List.mem_map.1 hx
        exact hexact l hl) with
      ⟨_, hle⟩ | ⟨i, w, hi, hrun, hlt, hle, hbefore⟩
    · exfalso
      have := hle (K.Pt l0.Momentum, some l0) (List.mem_map.2 ⟨l0, hl0, rfl⟩)
      simp only at this
      linarith
    · rw [List.getElem?_map] at hi
      cases hci : (Spec.towerLeaves W.GetCandidates)[i]? with
      | none => simp [hci] at hi
      | some c =>
        rw [hci] at hi
        simp only [Option.map_some', Option.some.injEq] at hi
        subst hi
        rw [hlead, hrun] at heq
        simp only [leadingMomentum] at heq
        refine ⟨i, c, hci, heq, hlt, ?_, ?_⟩
        · intro c2 hc2
          exact hle (K.Pt c2.Momentum, some c2) (List.mem_map.2 ⟨c2, hc2, rfl⟩)
        · intro j c2 hj hc2
          exact hbefore j (K.Pt c2.Momentum, some c2) hj (by rw [List.getElem?_map, hc2]; rfl)
  · intro hall
    refine ⟨leadingMomentum K (leadingLeaf K (Candidate.mk d pre)),
      findGenParticleCustom_eq K (Candidate.mk d pre) array hokpre, ?_⟩
    rw [heq, hlead, runMax_keep K.toFloat _ _ (by
      intro x hx
      obtain ⟨l, hl, rfl⟩ := List.mem_map.1 hx
      exact hall l hl)]
  · intro dObj dL dW dT dl _ h2
    have hok2 : (Candidate.mk dObj
        [Candidate.mk dL [], Candidate.mk dW [Candidate.mk dT [Candidate.mk dl []]]]).derefOK
          = true := rfl
    rw [findGenParticleCustom_eq K _ array hok2]
    have hl : leadingLeaf K (Candidate.mk dObj
        [Candidate.mk dL [], Candidate.mk dW [Candidate.mk dT [Candidate.mk dl []]]])
          = some (Candidate.mk dl []) := by
      simp only [leadingLeaf, Candidate.GetCandidates, List.foldl_cons, List.foldl_nil, leadStep,
        Spec.classify, Spec.towerLeaves]
      simp [runMax, Candidate.GetCandidates, Candidate.Momentum, Candidate.data, h2]
    rw [hl]
    rfl

theorem findGenParticleCustom_last_tower_witness :
    findGenParticleCustom Kinematics.axis
        (Example.node 0 false
          [Example.leaf 1 false 9 ⟨9, 0, 0, 9⟩,
           Example.node 2 false [Example.node 3 false [Example.leaf 4 false 2 ⟨2, 0, 0, 2⟩]]]) [] =
      some (⟨2, 0, 0, 2⟩,
        [Example.leaf 1 false 9 ⟨9, 0, 0, 9⟩, Example.leaf 4 false 2 ⟨2, 0, 0, 2⟩]) :=
  (findGenParticleCustom_last_tower Kinematics.axis ⟨0, false, 0, 0, 0⟩
    [Example.leaf 1 false 9 ⟨9, 0, 0, 9⟩]
    (Example.node 2 false [Example.node 3 false [Example.leaf 4 false 2 ⟨2, 0, 0, 2⟩]])
    (Example.node 3 false [Example.leaf 4 false 2 ⟨2, 0, 0, 2⟩]) [] []
    (by decide) rfl (by decide) (by decide)).2.2.2
      ⟨0, false, 0, 0, 0⟩ ⟨1, false, 9, ⟨9, 0, 0, 9⟩, 0⟩ ⟨2, false, 0, 0, 0⟩ ⟨3, false, 0, 0, 0⟩
      ⟨4, false, 2, ⟨2, 0, 0, 2⟩, 0⟩ rfl rfl

/-- C9, counterexample: for an object whose only constituent is TrackLike over
a Leaf with cached `PT` 5, `findGenParticleCustom` returns the initial zero
vector, not the momentum of that Leaf. -/
theorem findGenParticleCustom_track_counterexample :
    findGenParticleCustom Kinematics.axis Example.singleTrack [] =
      some (0, [Example.leaf 2 false 5 ⟨5, 0, 0, 5⟩]) ∧
    Kinematics.axis.rebuild (Example.leaf 2 false 5 ⟨5, 0, 0, 5⟩).Momentum ≠ 0 := by
  constructor
  · rfl
  · decide

/-- C9, amended: in `findGenParticleCustom` a TrackLike constituent takes no
part in the comparison: its pass of the loop only adds its Leaf to the array
and leaves `maxpart` and `maxpt` as they were, so the vector returned for an
object is the one returned without that constituent; for an object whose only
constituent is TrackLike the result is the initial zero vector. -/
theorem findGenParticleCustom_track_skipped (K : Kinematics) (s : LeadState)
    (c l : Candidate) (more : List Candidate)
    (hc : c.GetCandidates = l :: more) (hl : l.GetCandidates = []) :
    findGenParticleCustom.body K s c = some { s with array := s.array ++ [l] } ∧
    (∀ (d : CandidateData) (pre post : List Candidate) (array : TRefArray),
      pre.all Candidate.towerFilled = true → post.all Candidate.towerFilled = true →
      ∃ p : TLorentzVector,
        findGenParticleCustom K (Candidate.mk d (pre ++ c :: post)) array =
          some (p, Spec.flatten (Candidate.mk d (pre ++ c :: post))) ∧
        findGenParticleCustom K (Candidate.mk d (pre ++ post)) array =
          some (p, Spec.flatten (Candidate.mk d (pre ++ post)))) ∧
    (∀ (dObj dT dl : CandidateData) (array : TRefArray),
      findGenParticleCustom K (Candidate.mk dObj [Candidate.mk dT [Candidate.mk dl []]]) array =
        some (0, [Candidate.mk dl []])) := by
  refine ⟨?_, ?_, ?_⟩
  · simp [findGenParticleCustom.body, hc, hl, TRefArray.Add]
  · intro d pre post array hpre hpost
    have hcf : c.towerFilled = true := by
      simp [Candidate.towerFilled, hc, hl]
    have hok1 : (Candidate.mk d (pre ++ c :: post)).derefOK = true := by
      rw [derefOK_mk, List.all_append, List.all_cons, hpre, hpost, hcf]
      rfl
    have hok2 : (Candidate.mk d (pre ++ post)).derefOK = true := by
      rw [derefOK_mk, List.all_append, hpre, hpost]
      rfl
    refine ⟨leadingMomentum K (leadingLeaf K (Candidate.mk d (pre ++ post))), ?_,
      findGenParticleCustom_eq K _ array hok2⟩
    rw [findGenParticleCustom_eq K _ array hok1]
    have hlead : leadingLeaf K (Candidate.mk d (pre ++ c :: post)) =
        leadingLeaf K (Candidate.mk d (pre ++ post)) := by
      unfold leadingLeaf
      simp only [Candidate.GetCandidates, List.foldl_append, List.foldl_cons]
      rw [leadStep_track some K _ c l more hc hl]
    rw [hlead]
  · intro dObj dT dl array
    rfl

theorem findGenParticleCustom_track_skipped_witness :
    findGenParticleCustom.body Kinematics.axis (findGenParticleCustom.init [])
        (Example.node 1 false [Example.leaf 2 false 5 ⟨5, 0, 0, 5⟩]) =
      some ⟨[Example.leaf 2 false 5 ⟨5, 0, 0, 5⟩], 0, -1, [], []⟩ :=
  (findGenParticleCustom_track_skipped Kinematics.axis (findGenParticleCustom.init [])
    (Example.node 1 false [Example.leaf 2 false 5 ⟨5, 0, 0, 5⟩])
    (Example.leaf 2 false 5 ⟨5, 0, 0, 5⟩) [] rfl rfl).1

theorem runMax_fst {α : Type} (store : ℚ → ℚ) (xs : List (ℚ × α)) (best : α × ℚ) :
    (runMax store best xs).1 = best.1 ∨ ∃ x ∈ xs, (runMax store best xs).1 = x.2 := by
  rcases runMax_last store xs best with ⟨h, _⟩ | ⟨i, w, hi, h, _⟩
  · exact Or.inl (by rw [h])
  · exact Or.inr ⟨w, List.getElem?_mem hi, by rw [h]⟩

theorem leadStep_some_mem (K : Kinematics) (best : Option Candidate × ℚ) (c l : Candidate)
    (h : (leadStep some K best c).1 = some l) :
    best.1 = some l ∨ l ∈ Spec.emission c := by
  unfold leadStep at h
  unfold Spec.emission
  cases hcl : Spec.classify c with
  | Leaf =>
    rw [hcl] at h
    simp only at h ⊢
    rcases runMax_fst id [(c.PT, some c)] best with h1 | ⟨x, hx, h1⟩
    · exact Or.inl (by rw [← h1, h])
    · simp only [List.mem_singleton] at hx
      subst hx
      rw [h] at h1
      simp only [Option.some.injEq] at h1
      exact Or.inr (by simp [h1])
  | TrackLike =>
    rw [hcl] at h
    exact Or.inl h
  | TowerLike =>
    rw [hcl] at h
    simp only at h ⊢
    rcases runMax_fst K.toFloat ((Spec.towerLeaves c.GetCandidates).map
      (fun l => (K.Pt l.Momentum, some l))) (best.1, 0) with h1 | ⟨x, hx, h1⟩
    · exact Or.inl (by rw [← h1, h])
    · rw [List.mem_map] at hx
      obtain ⟨l2, hl2, rfl⟩ := hx
      rw [h] at h1
      simp only [Option.some.injEq] at h1
      exact Or.inr (by rw [h1]; exact hl2)

theorem foldl_leadStep_some_mem (K : Kinematics) (cs : List Candidate)
    (best : Option Candidate × ℚ) (l : Candidate)
    (h : (cs.foldl (leadStep some K) best).1 = some l) :
    best.1 = some l ∨ l ∈ cs.flatMap Spec.emission := by
  induction cs generalizing best with
  | nil => exact Or.inl h
  | cons c rest ih =>
    rw [List.foldl_cons] at h
    rcases ih _ h with h1 | h1
    · rcases leadStep_some_mem K best c l h1 with h2 | h2
      · exact Or.inl h2
      · exact Or.inr (by rw [List.flatMap_cons]; exact List.mem_append_left _ h2)
    · exact Or.inr (by rw [List.flatMap_cons]; exact List.mem_append_right _ h1)

/-- On an object read without a null pointer, `findGenParticleCustom` returns
the rebuilt momentum of the last Leaf that passed a comparison, which is one of
the Leaves it emits; when no Leaf passed a comparison, as for an object with no
constituents, it returns the initial vector `(0, 0, 0, 0)` and the entry's
leading-particle fields are read off that vector. -/
theorem findGenParticleCustom_no_winner (K : Kinematics) (obj : Candidate)
    (array : TRefArray) (hok : obj.derefOK = true) :
    findGenParticleCustom K obj array =
      some (leadingMomentum K (leadingLeaf K obj), Spec.flatten obj) ∧
    (∀ l : Candidate, leadingLeaf K obj = some l →
      l ∈ Spec.flatten obj ∧
      findGenParticleCustom K obj array = some (K.rebuild l.Momentum, Spec.flatten obj)) ∧
    (leadingLeaf K obj = none →
      findGenParticleCustom K obj array = some (0, Spec.flatten obj) ∧
      (obj.GetCandidates ≠ [] →
        ∃ entry : ParticleFlowCandidate,
          ProcessParticleFlowCandidates.body K obj = some entry ∧
          entry.leadingGenPart_PT = K.Pt 0 ∧ entry.leadingGenPart_Eta = K.Eta 0 ∧
          entry.leadingGenPart_Phi = K.Phi 0 ∧ entry.leadingGenPart_E = 0)) ∧
    (∀ d : CandidateData,
      leadingLeaf K (Candidate.mk d []) = none ∧
      findGenParticleCustom K (Candidate.mk d []) array = some (0, [])) := by
  have heq := findGenParticleCustom_eq K obj array hok
  refine ⟨heq, ?_, ?_, ?_⟩
  · intro l hl
    refine ⟨?_, by rw [heq, hl]; rfl⟩
    rcases foldl_leadStep_some_mem K obj.GetCandidates (none, -1) l hl with h | h
    · exact absurd h (by simp)
    · exact h
  · intro hnone
    refine ⟨by rw [heq, hnone]; rfl, ?_⟩
    intro hne
    cases hcs : obj.GetCandidates with
    | nil => exact absurd hcs hne
    | cons first rest =>
      obtain ⟨hard, soft, _, hbody⟩ :=
        ProcessParticleFlowCandidates_body_eq K obj first rest hok hcs
      rw [hnone] at hbody
      exact ⟨_, hbody, rfl, rfl, rfl, rfl⟩
  · intro d
    exact ⟨rfl, rfl⟩

/-! ## When the traversals read a null pointer -/

theorem FillParticlesCustom_tower_none (K : Kinematics) (ts : List Candidate) (s : AttrState)
    (h : ts.all (fun t => !t.GetCandidates.isEmpty) = false) :
    FillParticlesCustom.tower K s ts = none := by
  induction ts generalizing s with
  | nil => simp at h
  | cons t rest ih =>
    cases hc : t.GetCandidates with
    | nil => simp [FillParticlesCustom.tower, FillParticlesCustom.towerBody, hc]
    | cons l more =>
      have hrest : rest.all (fun t => !t.GetCandidates.isEmpty) = false := by
        simpa [List.all_cons, hc] using h
      simp only [FillParticlesCustom.tower, FillParticlesCustom.towerBody, hc, List.head?_cons]
      exact ih _ hrest

theorem towerFilled_false (c : Candidate) (h : c.towerFilled = false) :
    ∃ first rest, c.GetCandidates = first :: rest ∧ first.GetCandidates.length ≠ 0 ∧
      c.GetCandidates.all (fun t => !t.GetCandidates.isEmpty) = false := by
  unfold Candidate.towerFilled at h
  cases hc : c.GetCandidates with
  | nil => simp [hc] at h
  | cons first rest =>
    rw [hc] at h
    simp only [Bool.or_eq_false_iff] at h
    refine ⟨first, rest, rfl, ?_, h.2⟩
    cases hf : first.GetCandidates with
    | nil => simp [hf] at h
    | cons a b => simp

theorem FillParticlesCustom_body_none (K : Kinematics) (c : Candidate) (s : AttrState)
    (h : c.towerFilled = false) : FillParticlesCustom.body K s c = none := by
  obtain ⟨first, rest, hc, hf, hall⟩ := towerFilled_false c h
  unfold FillParticlesCustom.body
  rw [hc]
  simp only [hf, if_false]
  rw [← hc]
  exact FillParticlesCustom_tower_none K _ s hall

theorem FillParticlesCustom_loop_none (K : Kinematics) (cs : List Candidate) (s : AttrState)
    (h : cs.all Candidate.towerFilled = false) : FillParticlesCustom.loop K s cs = none := by
  induction cs generalizing s with
  | nil => simp at h
  | cons c rest ih =>
    cases hc : c.towerFilled with
    | false => simp [FillParticlesCustom.loop, FillParticlesCustom_body_none K c s hc]
    | true =>
      have hrest : rest.all Candidate.towerFilled = false := by
        simpa [List.all_cons, hc] using h
      simp only [FillParticlesCustom.loop, FillParticlesCustom_body_eq K c s hc]
      exact ih _ hrest

theorem FillParticlesCustom_isSome (K : Kinematics) (obj : Candidate) (array : TRefArray) :
    (FillParticlesCustom K obj array).isSome = obj.derefOK := by
  cases h : obj.derefOK with
  | true => rw [FillParticlesCustom_eq K obj array h]; rfl
  | false =>
    unfold FillParticlesCustom
    rw [FillParticlesCustom_loop_none K _ _ h]
    rfl

theorem findGenParticleCustom_tower_none (K : Kinematics) (ts : List Candidate) (s : LeadState)
    (h : ts.all (fun t => !t.GetCandidates.isEmpty) = false) :
    findGenParticleCustom.tower K s ts = none := by
  induction ts generalizing s with
  | nil => simp at h
  | cons t rest ih =>
    cases hc : t.GetCandidates with
    | nil => simp [findGenParticleCustom.tower, findGenParticleCustom.towerBody, hc]
    | cons l more =>
      have hrest : rest.all (fun t => !t.GetCandidates.isEmpty) = false := by
        simpa [List.all_cons, hc] using h
      simp only [findGenParticleCustom.tower, findGenParticleCustom.towerBody, hc,
        List.head?_cons]
      by_cases hgt : K.Pt l.Momentum > s.maxpt
      · simp only [hgt, if_true]
        exact ih _ hrest
      · simp only [hgt, if_false]
        exact ih _ hrest

theorem findGenParticleCustom_body_none (K : Kinematics) (c : Candidate) (s : LeadState)
    (h : c.towerFilled = false) : findGenParticleCustom.body K s c = none := by
  obtain ⟨first, rest, hc, hf, hall⟩ := towerFilled_false c h
  unfold findGenParticleCustom.body
  rw [hc]
  simp only [hf, if_false]
  rw [← hc]
  exact findGenParticleCustom_tower_none K _ _ hall

theorem findGenParticleCustom_loop_none (K : Kinematics) (cs : List Candidate) (s : LeadState)
    (h : cs.all Candidate.towerFilled = false) : findGenParticleCustom.loop K s cs = none := by
  induction cs generalizing s with
  | nil => simp at h
  | cons c rest ih =>
    cases hc : c.towerFilled with
    | false => simp [findGenParticleCustom.loop, findGenParticleCustom_body_none K c s hc]
    | true =>
      have hrest : rest.all Candidate.towerFilled = false := by
        simpa [List.all_cons, hc] using h
      obtain ⟨hard, soft, hb⟩ := findGenParticleCustom_body_eq K c s hc
      simp only [findGenParticleCustom.loop, hb]
      exact ih _ hrest

theorem findGenParticleCustom_isSome (K : Kinematics) (obj : Candidate) (array : TRefArray) :
    (findGenParticleCustom K obj array).isSome = obj.derefOK := by
  cases h : obj.derefOK with
  | true => rw [findGenParticleCustom_eq K obj array h]; rfl
  | false =>
    unfold findGenParticleCustom
    rw [findGenParticleCustom_loop_none K _ _ h]
    rfl

/-- The traversals and the objects they complete on: `FillParticles` runs to
completion on every object (a tower entry without children adds nothing to the
array); `FillParticlesCustom` and `findGenParticleCustom` run to completion
exactly on the objects in which every entry of every constituent handled by the
tower branch has a first child, and fail on a null pointer on every other
object. -/
theorem traversals_complete_iff (K : Kinematics) (obj : Candidate) (array : TRefArray) :
    FillParticles obj array = Spec.flatten obj ∧
    (FillParticlesCustom K obj array).isSome = obj.derefOK ∧
    (findGenParticleCustom K obj array).isSome = obj.derefOK ∧
    (obj.derefOK = true →
      ∃ (sums : TLorentzVector × TLorentzVector) (maxpart : TLorentzVector),
        FillParticlesCustom K obj array = some (sums, Spec.flatten obj) ∧
        findGenParticleCustom K obj array = some (maxpart, Spec.flatten obj)) ∧
    (obj.derefOK = false →
      FillParticlesCustom K obj array = none ∧ findGenParticleCustom K obj array = none) := by
  refine ⟨FillParticles_eq_flatten obj array, FillParticlesCustom_isSome K obj array,
    findGenParticleCustom_isSome K obj array, ?_, ?_⟩
  · intro h
    exact ⟨_, _, FillParticlesCustom_eq K obj array h, findGenParticleCustom_eq K obj array h⟩
  · intro h
    have h1 := FillParticlesCustom_isSome K obj array
    have h2 := findGenParticleCustom_isSome K obj array
    rw [h] at h1 h2
    exact ⟨Option.not_isSome_iff_eq_none.1 (by simp [h1]),
      Option.not_isSome_iff_eq_none.1 (by simp [h2])⟩

/-- C11: on `Example.gappedTower`, an object whose only constituent goes to the
tower branch and has a second entry without children, `FillParticles` returns
the one Leaf, while `FillParticlesCustom` and `findGenParticleCustom` read the
momentum of the null first child of that entry and fail, whatever the
kinematics and the array passed in. -/
theorem malformed_tower_fails (K : Kinematics) (array : TRefArray) :
    FillParticles Example.gappedTower array = [Example.leaf 3 false 4 ⟨4, 0, 0, 4⟩] ∧
    FillParticlesCustom K Example.gappedTower array = none ∧
    findGenParticleCustom K Example.gappedTower array = none := by
  have hbad : Example.gappedTower.derefOK = false := rfl
  have h1 := FillParticlesCustom_isSome K Example.gappedTower array
  have h2 := findGenParticleCustom_isSome K Example.gappedTower array
  rw [hbad] at h1 h2
  exact ⟨rfl, Option.not_isSome_iff_eq_none.1 (by simp [h1]),
    Option.not_isSome_iff_eq_none.1 (by simp [h2])⟩

/-- C10: `findGenParticleCustom` fails on an object on which no Leaf wins a
comparison.  For an object whose only constituent is a tower with a first entry
over a Leaf of `Pt() ≤ 0` and a second entry without children, the pass over
the first entry leaves `maxpart` at the initial `(0, 0, 0, 0)`, the pass over
the second entry reads the momentum of a null first child, and the function
returns nothing.  An object with no constituents gives the initial vector. -/
theorem findGenParticleCustom_empty_selection (K : Kinematics)
    (d dW dT dl dG : CandidateData) (array : TRefArray) (hpt : K.Pt dl.Momentum ≤ 0) :
    findGenParticleCustom.body K (findGenParticleCustom.init array)
        (Candidate.mk dW [Candidate.mk dT [Candidate.mk dl []]]) =
      some ⟨[Candidate.mk dl []], 0, 0, [], []⟩ ∧
    findGenParticleCustom.towerBody K ⟨[], 0, 0, [], []⟩ (Candidate.mk dT [Candidate.mk dl []]) =
      some ⟨[Candidate.mk dl []], 0, 0, [], []⟩ ∧
    findGenParticleCustom.towerBody K ⟨[Candidate.mk dl []], 0, 0, [], []⟩ (Candidate.mk dG []) =
      none ∧
    leadingLeaf K
      (Candidate.mk d [Candidate.mk dW [Candidate.mk dT [Candidate.mk dl []], Candidate.mk dG []]])
      = none ∧
    findGenParticleCustom K
      (Candidate.mk d [Candidate.mk dW [Candidate.mk dT [Candidate.mk dl []], Candidate.mk dG []]])
      array = none ∧
    findGenParticleCustom K (Candidate.mk d []) array = some (0, []) := by
  have hno : ¬ K.Pt dl.Momentum > 0 := not_lt.2 hpt
  have hbad : (Candidate.mk d
      [Candidate.mk dW [Candidate.mk dT [Candidate.mk dl []], Candidate.mk dG []]]).derefOK
        = false := rfl
  have h2 := findGenParticleCustom_isSome K
    (Candidate.mk d [Candidate.mk dW [Candidate.mk dT [Candidate.mk dl []], Candidate.mk dG []]])
    array
  rw [hbad] at h2
  refine ⟨?_, ?_, rfl, ?_, Option.not_isSome_iff_eq_none.1 (by simp [h2]), rfl⟩
  · simp [findGenParticleCustom.body, findGenParticleCustom.tower,
      findGenParticleCustom.towerBody, findGenParticleCustom.init, Candidate.GetCandidates,
      Candidate.Momentum, Candidate.data, TRefArray.Add, TRefArray.Clear, hno] at hno ⊢
  · simp [findGenParticleCustom.towerBody, Candidate.GetCandidates, Candidate.Momentum,
      Candidate.data, TRefArray.Add, hno] at hno ⊢
  · simp [leadingLeaf, leadStep, Spec.classify, Spec.towerLeaves, runMax,
      Candidate.GetCandidates, Candidate.Momentum, Candidate.data, hno] at hno ⊢

theorem findGenParticleCustom_empty_selection_witness :
    findGenParticleCustom Kinematics.axis Example.restThenGapTower [] = none :=
  (findGenParticleCustom_empty_selection Kinematics.axis ⟨0, false, 0, 0, 0⟩
    ⟨1, false, 0, 0, 0⟩ ⟨2, false, 0, 0, 0⟩ ⟨3, false, 0, ⟨0, 0, 0, 1⟩, 0⟩ ⟨4, false, 0, 0, 0⟩ []
    (by decide)).2.2.2.2.1

/-! ## Flatten again, and the arrays of the three traversals -/

/-- C12: `FillParticles` clears the array first, so its result does not depend
on what the array held, and running it again on the same graph into the array
of a first run leaves the same sequence. -/
theorem FillParticles_idempotent (obj : Candidate) (array array2 : TRefArray) :
    FillParticles obj (FillParticles obj array) = FillParticles obj array ∧
    FillParticles obj array = FillParticles obj array2 ∧
    FillParticles obj array = FillParticles obj [] := by
  refine ⟨?_, ?_, ?_⟩ <;> simp only [FillParticles_eq_flatten]

/-- C13: whenever `FillParticlesCustom` and `findGenParticleCustom` run to
completion on an object, the array each leaves is the array `FillParticles`
produces, whatever the arrays held before; such an object is read without a
null pointer. -/
theorem traversals_same_array (K : Kinematics) (obj : Candidate)
    (array1 array2 array3 arrayC arrayL : TRefArray)
    (sums : TLorentzVector × TLorentzVector) (maxpart : TLorentzVector)
    (hattr : FillParticlesCustom K obj array1 = some (sums, arrayC))
    (hlead : findGenParticleCustom K obj array2 = some (maxpart, arrayL)) :
    arrayC = FillParticles obj array3 ∧ arrayL = FillParticles obj array3 ∧
    obj.derefOK = true := by
  have hok : obj.derefOK = true := by
    rw [← FillParticlesCustom_isSome K obj array1, hattr]
    rfl
  rw [FillParticlesCustom_eq K obj array1 hok] at hattr
  rw [findGenParticleCustom_eq K obj array2 hok] at hlead
  simp only [Option.some.injEq, Prod.mk.injEq] at hattr hlead
  rw [FillParticles_eq_flatten]
  exact ⟨hattr.2.symm, hlead.2.symm, hok⟩

theorem traversals_same_array_witness :
    [Example.leaf 1 false 4 ⟨4, 0, 0, 4⟩, Example.leaf 2 true 6 ⟨6, 0, 0, 6⟩] =
        FillParticles Example.mixedTower [] ∧
    [Example.leaf 1 false 4 ⟨4, 0, 0, 4⟩, Example.leaf 2 true 6 ⟨6, 0, 0, 6⟩] =
        FillParticles Example.mixedTower [] ∧
    Example.mixedTower.derefOK = true :=
  traversals_same_array Kinematics.axis Example.mixedTower [] [] []
    [Example.leaf 1 false 4 ⟨4, 0, 0, 4⟩, Example.leaf 2 true 6 ⟨6, 0, 0, 6⟩]
    [Example.leaf 1 false 4 ⟨4, 0, 0, 4⟩, Example.leaf 2 true 6 ⟨6, 0, 0, 6⟩]
    ((0 : TLorentzVector) + TLorentzVector.mk 4 0 0 4,
      (0 : TLorentzVector) + TLorentzVector.mk 6 0 0 6) 0 rfl rfl

/-! ## The branch taken for a constituent -/

theorem classify_eq_byCounts (c : Candidate) :
    Spec.classify c =
      Spec.classifyByCounts c.GetCandidates.length
        (c.GetCandidates.head?.map (fun first => first.GetCandidates.length)) := by
  unfold Spec.classify Spec.classifyByCounts
  cases hc : c.GetCandidates with
  | nil => rfl
  | cons first rest =>
    by_cases hf : first.GetCandidates.length = 0
    · simp [hf]
    · simp [hf]

/-- C14: the branch each traversal takes for a constituent is its shape, and
the shape is a function of the constituent's own child count and its first
child's child count alone: Leaf iff it has no children, TrackLike iff it has a
child and its first child has none, TowerLike otherwise; constituents that
agree on the two counts get the same shape, so the same branch. -/
theorem classify_depends_on_counts :
    (∀ c : Candidate,
      Spec.classify c =
        Spec.classifyByCounts c.GetCandidates.length
          (c.GetCandidates.head?.map (fun first => first.GetCandidates.length))) ∧
    (∀ c : Candidate,
      (Spec.classify c = Spec.Shape.Leaf ↔ c.GetCandidates.length = 0) ∧
      (Spec.classify c = Spec.Shape.TrackLike ↔
        0 < c.GetCandidates.length ∧
        c.GetCandidates.head?.map (fun first => first.GetCandidates.length) = some 0) ∧
      (Spec.classify c = Spec.Shape.TowerLike ↔
        ¬ c.GetCandidates.length = 0 ∧
        ¬ c.GetCandidates.head?.map (fun first => first.GetCandidates.length) = some 0)) ∧
    (∀ c1 c2 : Candidate,
      c1.GetCandidates.length = c2.GetCandidates.length →
      c1.GetCandidates.head?.map (fun first => first.GetCandidates.length) =
        c2.GetCandidates.head?.map (fun first => first.GetCandidates.length) →
      Spec.classify c1 = Spec.classify c2) ∧
    (∀ (array : TRefArray) (c : Candidate),
      FillParticles.body array c =
        match Spec.classify c with
        | Spec.Shape.Leaf => array.Add (some c)
        | Spec.Shape.TrackLike => array.Add c.GetCandidates.head?
        | Spec.Shape.TowerLike => FillParticles.tower array c.GetCandidates) ∧
    (∀ (K : Kinematics) (s : AttrState) (c : Candidate),
      FillParticlesCustom.body K s c =
        match Spec.classify c with
        | Spec.Shape.Leaf =>
          some (AttrState.file { s with array := s.array.Add (some c) } c.IsPU
            (K.rebuild c.Momentum))
        | Spec.Shape.TrackLike =>
          c.GetCandidates.head?.map (fun first =>
            AttrState.file { s with array := s.array.Add (some first) } first.IsPU
              (K.rebuild first.Momentum))
        | Spec.Shape.TowerLike => FillParticlesCustom.tower K s c.GetCandidates) ∧
    (∀ (K : Kinematics) (s : LeadState) (c : Candidate),
      findGenParticleCustom.body K s c =
        match Spec.classify c with
        | Spec.Shape.Leaf => some (findGenParticleCustom.particle K s c)
        | Spec.Shape.TrackLike =>
          c.GetCandidates.head?.map (fun first =>
            { s with array := s.array.Add (some first) })
        | Spec.Shape.TowerLike =>
          findGenParticleCustom.tower K { s with maxpt := 0 } c.GetCandidates) := by
  refine ⟨classify_eq_byCounts, ?_, ?_, ?_, ?_, ?_⟩
  · intro c
    unfold Spec.classify
    cases hc : c.GetCandidates with
    | nil => simp
    | cons first rest =>
      by_cases hf : first.GetCandidates.length = 0
      · simp [hf]
      · simp [hf]
  · intro c1 c2 h1 h2
    rw [classify_eq_byCounts c1, classify_eq_byCounts c2, h1, h2]
  · intro array c
    unfold FillParticles.body Spec.classify
    cases hc : c.GetCandidates with
    | nil => rfl
    | cons first rest =>
      by_cases hf : first.GetCandidates.length = 0
      · simp [hf]
      · simp [hf]
  · intro K s c
    unfold FillParticlesCustom.body Spec.classify
    cases hc : c.GetCandidates with
    | nil => rfl
    | cons first rest =>
      by_cases hf : first.GetCandidates.length = 0
      · simp [hf]
      · simp [hf]
  · intro K s c
    unfold findGenParticleCustom.body Spec.classify
    cases hc : c.GetCandidates with
    | nil => rfl
    | cons first rest =>
      by_cases hf : first.GetCandidates.length = 0
      · simp [hf]
      · simp [hf]

theorem classify_depends_on_counts_witness :
    Spec.classify
        (Example.node 1 false
          [Example.leaf 2 false 1 ⟨1, 0, 0, 1⟩, Example.leaf 3 false 2 ⟨2, 0, 0, 2⟩]) =
      Spec.classify
        (Example.node 4 true
          [Example.leaf 5 true 3 ⟨3, 0, 0, 3⟩,
           Example.node 6 false [Example.leaf 7 false 4 ⟨4, 0, 0, 4⟩]]) :=
  classify_depends_on_counts.2.2.1 _ _ rfl rfl

/-! ## Well-shaped objects -/

theorem towerLeaves_of_oneLeafChild (ts : List Candidate)
    (h : ts.all Spec.hasOneLeafChild = true) :
    (∀ l ∈ Spec.towerLeaves ts, l.GetCandidates = []) ∧
    (Spec.towerLeaves ts).length = ts.length := by
  induction ts with
  | nil => simp [Spec.towerLeaves]
  | cons t rest ih =>
    simp only [List.all_cons, Bool.and_eq_true] at h
    obtain ⟨ht, hrest⟩ := h
    obtain ⟨ih1, ih2⟩ := ih hrest
    unfold Spec.hasOneLeafChild at ht
    cases hc : t.GetCandidates with
    | nil => simp [hc] at ht
    | cons l more =>
      cases more with
      | cons a b => simp [hc] at ht
      | nil =>
        rw [hc] at ht
        simp only [Spec.isLeaf, List.isEmpty_eq_true] at ht
        have hl : Spec.towerLeaves (t :: rest) = l :: Spec.towerLeaves rest := by
          simp [Spec.towerLeaves, hc]
        rw [hl]
        constructor
        · intro x hx
          rcases List.mem_cons.1 hx with rfl | hx
          · exact ht
          · exact ih1 x hx
        · simp [ih2]

theorem emission_of_wellShaped (c : Candidate) (h : Spec.wellShapedConstituent c = true) :
    (∀ l ∈ Spec.emission c, l.GetCandidates = []) ∧
    (Spec.emission c).length =
      (if Spec.classify c = Spec.Shape.Leaf then 1 else 0) +
      (if Spec.classify c = Spec.Shape.TrackLike then 1 else 0) +
      (if Spec.classify c = Spec.Shape.TowerLike then c.GetCandidates.length else 0) := by
  unfold Spec.wellShapedConstituent at h
  unfold Spec.emission Spec.classify
  cases hc : c.GetCandidates with
  | nil => simp [hc]
  | cons first rest =>
    by_cases hf : first.GetCandidates.length = 0
    · have hfl : first.GetCandidates = [] := List.length_eq_zero.1 hf
      simp [hf, hfl]
    · have hall : c.GetCandidates.all Spec.hasOneLeafChild = true := by
        simp only [Bool.or_eq_true] at h
        rcases h with (h | h) | h
        · simp [Spec.isLeaf, hc] at h
        · exfalso
          unfold Spec.hasOneLeafChild at h
          rw [hc] at h
          cases rest with
          | cons a b => simp at h
          | nil =>
            simp only [Spec.isLeaf, List.isEmpty_eq_true] at h
            exact hf (by rw [h]; rfl)
        · exact h
      obtain ⟨h1, h2⟩ := towerLeaves_of_oneLeafChild _ hall
      rw [hc] at h1 h2
      simp only [hf, if_false]
      refine ⟨h1, ?_⟩
      simp [h2]

/-- C15: on a well-shaped object (each constituent a Leaf, a node with exactly
one Leaf child, or a node whose children each have exactly one Leaf child)
every node `FillParticles` returns has no children, and the number of nodes
returned is the number of Leaf constituents plus the number of TrackLike
constituents plus the total number of children of the TowerLike constituents. -/
theorem FillParticles_wellShaped (obj : Candidate) (array : TRefArray)
    (h : Spec.wellShaped obj = true) :
    (∀ l ∈ FillParticles obj array, l.GetCandidates = []) ∧
    (FillParticles obj array).length =
      Spec.countShape Spec.Shape.Leaf obj.GetCandidates +
      Spec.countShape Spec.Shape.TrackLike obj.GetCandidates +
      Spec.towerChildren obj.GetCandidates := by
  rw [FillParticles_eq_flatten]
  unfold Spec.flatten
  unfold Spec.wellShaped at h
  generalize obj.GetCandidates = cs at h
  induction cs with
  | nil => simp [Spec.countShape, Spec.towerChildren]
  | cons c rest ih =>
    simp only [List.all_cons, Bool.and_eq_true] at h
    obtain ⟨hc, hrest⟩ := h
    obtain ⟨ih1, ih2⟩ := ih hrest
    obtain ⟨h1, h2⟩ := emission_of_wellShaped c hc
    constructor
    · intro l hl
      rw [List.flatMap_cons, List.mem_append] at hl
      rcases hl with hl | hl
      · exact h1 l hl
      · exact ih1 l hl
    · rw [List.flatMap_cons, List.length_append, ih2, h2]
      unfold Spec.countShape Spec.towerChildren
      cases hcl : Spec.classify c <;> simp [List.filter_cons, hcl] <;> omega

theorem FillParticles_wellShaped_witness :
    (FillParticles
        (Example.node 0 false
          [Example.leaf 1 false 3 ⟨3, 0, 0, 3⟩,
           Example.node 2 false [Example.leaf 3 true 5 ⟨5, 0, 0, 5⟩],
           Example.mixedTower]) []).length = 1 + 1 + 2 :=
  (FillParticles_wellShaped
    (Example.node 0 false
      [Example.leaf 1 false 3 ⟨3, 0, 0, 3⟩,
       Example.node 2 false [Example.leaf 3 true 5 ⟨5, 0, 0, 5⟩],
       Example.mixedTower]) [] (by decide)).2

/-! ## A tower as the only constituent -/

theorem findGenParticleCustom_body_tower (K : Kinematics) (s : LeadState) (W first : Candidate)
    (rest : List Candidate) (hW : W.GetCandidates = first :: rest)
    (hfirst : first.GetCandidates.length ≠ 0)
    (hfilled : W.GetCandidates.all (fun t => !t.GetCandidates.isEmpty) = true) :
    findGenParticleCustom.body K s W =
      some ⟨s.array ++ Spec.towerLeaves W.GetCandidates,
        (runMax K.toFloat (s.maxpart, (0 : ℚ))
          ((Spec.towerLeaves W.GetCandidates).map
            (fun l => (K.Pt l.Momentum, K.rebuild l.Momentum)))).1,
        (runMax K.toFloat (s.maxpart, (0 : ℚ))
          ((Spec.towerLeaves W.GetCandidates).map
            (fun l => (K.Pt l.Momentum, K.rebuild l.Momentum)))).2,
        s.hard, s.soft⟩ := by
  unfold findGenParticleCustom.body
  rw [hW]
  simp only [hfirst, if_false]
  rw [← hW, findGenParticleCustom_tower_eq K _ _ hfilled]

theorem findGenParticleCustom_one_tower (K : Kinematics) (d : CandidateData) (W first : Candidate)
    (rest : List Candidate) (array : TRefArray) (hW : W.GetCandidates = first :: rest)
    (hfirst : first.GetCandidates.length ≠ 0)
    (hfilled : W.GetCandidates.all (fun t => !t.GetCandidates.isEmpty) = true) :
    findGenParticleCustom K (Candidate.mk d [W]) array =
      some ((runMax K.toFloat ((0 : TLorentzVector), (0 : ℚ))
          ((Spec.towerLeaves W.GetCandidates).map
            (fun l => (K.Pt l.Momentum, K.rebuild l.Momentum)))).1,
        Spec.towerLeaves W.GetCandidates) := by
  have hcs : (Candidate.mk d [W]).GetCandidates = [W] := rfl
  unfold findGenParticleCustom
  rw [hcs]
  simp only [findGenParticleCustom.loop]
  rw [findGenParticleCustom_body_tower K _ W first rest hW hfirst hfilled]
  simp only [findGenParticleCustom.init, TRefArray.Clear, List.nil_append]

theorem towerScores_recache (K : Kinematics) (f : Candidate → ℚ) (ts : List Candidate) :
    (Spec.towerLeaves (ts.map (fun t =>
      Candidate.mk t.data (match t.GetCandidates with
        | [] => []
        | l :: more => l.withPT (f l) :: more)))).map
        (fun l => (K.Pt l.Momentum, K.rebuild l.Momentum)) =
      (Spec.towerLeaves ts).map (fun l => (K.Pt l.Momentum, K.rebuild l.Momentum)) := by
  induction ts with
  | nil => rfl
  | cons t rest ih =>
    unfold Spec.towerLeaves at ih ⊢
    rw [List.map_cons, List.flatMap_cons, List.flatMap_cons, List.map_append, List.map_append, ih]
    congr 1
    cases hc : t.GetCandidates with
    | nil => simp [Candidate.GetCandidates]
    | cons l more =>
      simp [Candidate.GetCandidates, Candidate.withPT, Candidate.Momentum, Candidate.data]

/-- C16, counterexample: for an object whose only constituent is a tower with
Leaves of `Pt()` 33554434 and 33554433, the score kept for the first Leaf is
its single-precision value 33554432, which the second Leaf exceeds: the Leaf
returned is the second one, which does not have the greatest `Pt()`. -/
theorem findGenParticleCustom_single_tower_counterexample :
    findGenParticleCustom Kinematics.axis Example.singleNarrowedTower [] =
      some (⟨33554433, 0, 0, 33554433⟩,
        [Example.leaf 3 false 0 ⟨33554434, 0, 0, 33554434⟩,
         Example.leaf 5 false 0 ⟨33554433, 0, 0, 33554433⟩]) ∧
    Kinematics.axis.rebuild (Example.leaf 3 false 0 ⟨33554434, 0, 0, 33554434⟩).Momentum ≠
      ⟨33554433, 0, 0, 33554433⟩ ∧
    Kinematics.axis.Pt (Example.leaf 5 false 0 ⟨33554433, 0, 0, 33554433⟩).Momentum <
      Kinematics.axis.Pt (Example.leaf 3 false 0 ⟨33554434, 0, 0, 33554434⟩).Momentum ∧
    Kinematics.axis.toFloat 33554434 = 33554432 := by
  refine ⟨rfl, by decide, by decide, by decide⟩

/-- C16, amended: for a tower constituent `findGenParticleCustom` sets the
score to zero and compares the `Pt()` of the momentum of each emitted Leaf,
never its cached `PT`, with the score, which is kept in single precision.  For
an object whose only constituent is a tower with some Leaf of `Pt() > 0` the
result is the rebuilt momentum of a Leaf of the tower, the last one whose
`Pt()` exceeded the stored score (no later Leaf has a `Pt()` above that Leaf's
stored score); when storing in single precision changes the `Pt()` of no Leaf
of the tower it is the first Leaf of greatest `Pt()`.  The result is the zero
vector when no Leaf has `Pt() > 0`, and it does not change when the cached `PT`
of the Leaves is changed. -/
theorem findGenParticleCustom_single_tower (K : Kinematics) (d : CandidateData)
    (W first : Candidate) (rest : List Candidate) (array : TRefArray)
    (hW : W.GetCandidates = first :: rest) (hfirst : first.GetCandidates.length ≠ 0)
    (hfilled : W.GetCandidates.all (fun t => !t.GetCandidates.isEmpty) = true) :
    (∀ s : LeadState,
      findGenParticleCustom.body K s W =
        some ⟨s.array ++ Spec.towerLeaves W.GetCandidates,
          (runMax K.toFloat (s.maxpart, (0 : ℚ))
            ((Spec.towerLeaves W.GetCandidates).map
              (fun l => (K.Pt l.Momentum, K.rebuild l.Momentum)))).1,
          (runMax K.toFloat (s.maxpart, (0 : ℚ))
            ((Spec.towerLeaves W.GetCandidates).map
              (fun l => (K.Pt l.Momentum, K.rebuild l.Momentum)))).2,
          s.hard, s.soft⟩) ∧
    ((∃ l ∈ Spec.towerLeaves W.GetCandidates, 0 < K.Pt l.Momentum) →
      ∃ (i : ℕ) (w : Candidate), (Spec.towerLeaves W.GetCandidates)[i]? = some w ∧
        findGenParticleCustom K (Candidate.mk d [W]) array =
          some (K.rebuild w.Momentum, Spec.towerLeaves W.GetCandidates) ∧
        scoreAfter K ((Spec.towerLeaves W.GetCandidates).take i) < K.Pt w.Momentum ∧
        (∀ (j : ℕ) (l : Candidate), i < j → (Spec.towerLeaves W.GetCandidates)[j]? = some l →
          K.Pt l.Momentum ≤ K.toFloat (K.Pt w.Momentum))) ∧
    ((∀ l ∈ Spec.towerLeaves W.GetCandidates, K.Exact (K.Pt l.Momentum)) →
      (∃ l ∈ Spec.towerLeaves W.GetCandidates, 0 < K.Pt l.Momentum) →
      ∃ (i : ℕ) (w : Candidate), (Spec.towerLeaves W.GetCandidates)[i]? = some w ∧
        findGenParticleCustom K (Candidate.mk d [W]) array =
          some (K.rebuild w.Momentum, Spec.towerLeaves W.GetCandidates) ∧
        0 < K.Pt w.Momentum ∧
        (∀ l ∈ Spec.towerLeaves W.GetCandidates, K.Pt l.Momentum ≤ K.Pt w.Momentum) ∧
        (∀ (j : ℕ) (l : Candidate), j < i → (Spec.towerLeaves W.GetCandidates)[j]? = some l →
          K.Pt l.Momentum < K.Pt w.Momentum)) ∧
    ((∀ l ∈ Spec.towerLeaves W.GetCandidates, K.Pt l.Momentum ≤ 0) →
      findGenParticleCustom K (Candidate.mk d [W]) array =
        some (0, Spec.towerLeaves W.GetCandidates)) ∧
    (∀ f : Candidate → ℚ,
      (findGenParticleCustom K (Candidate.mk d [W.recacheLeaves f]) array).map Prod.fst =
        (findGenParticleCustom K (Candidate.mk d [W]) array).map Prod.fst) ∧
    (∀ (dObj dW dT1 da dT2 db : CandidateData), K.Exact 1 →
      da.PT = 100 → K.Pt da.Momentum = 1 → db.PT = 1 → K.Pt db.Momentum = 2 →
      findGenParticleCustom K
          (Candidate.mk dObj
            [Candidate.mk dW [Candidate.mk dT1 [Candidate.mk da []],
                              Candidate.mk dT2 [Candidate.mk db []]]]) array =
        some (K.rebuild db.Momentum, [Candidate.mk da [], Candidate.mk db []])) := by
  have hone := findGenParticleCustom_one_tower K d W first rest array hW hfirst hfilled
  refine ⟨fun s => findGenParticleCustom_body_tower K s W first rest hW hfirst hfilled,
    ?_, ?_, ?_, ?_, ?_⟩
  · intro hpos
    obtain ⟨i, w, hi, hrun, hbefore, hafter⟩ :=
      runMax_tower K (fun l => K.rebuild l.Momentum) (0 : TLorentzVector)
        (Spec.towerLeaves W.GetCandidates) hpos
    rw [hrun] at hone
    exact ⟨i, w, hi, hone, hbefore, hafter⟩
  · rintro hexact ⟨l0, hl0, hpos⟩
    rcases runMax_spec K.toFloat ((Spec.towerLeaves W.GetCandidates).map
        (fun l => (K.Pt l.Momentum, K.rebuild l.Momentum))) ((0 : TLorentzVector), (0 : ℚ))
        (by
          intro x hx
          obtain ⟨l, hl, rfl⟩ := List.mem_map.1 hx
          exact hexact l hl) with
      ⟨_, hle⟩ | ⟨i, w, hi, hrun, hlt, hle, hbefore⟩
    · exfalso
      have := hle (K.Pt l0.Momentum, K.rebuild l0.Momentum) (List.mem_map.2 ⟨l0, hl0, rfl⟩)
      simp only at this
      linarith
    · rw [List.getElem?_map] at hi
      cases hci : (Spec.towerLeaves W.GetCandidates)[i]? with
      | none => simp [hci] at hi
      | some c =>
        rw [hci] at hi
        simp only [Option.map_some', Option.some.injEq] at hi
        subst hi
        rw [hrun] at hone
        refine ⟨i, c, hci, hone, hlt, ?_, ?_⟩
        · intro c2 hc2
          exact hle (K.Pt c2.Momentum, K.rebuild c2.Momentum) (List.mem_map.2 ⟨c2, hc2, rfl⟩)
        · intro j c2 hj hc2
          exact hbefore j (K.Pt c2.Momentum, K.rebuild c2.Momentum) hj
            (by rw [List.getElem?_map, hc2]; rfl)
  · intro hall
    rw [hone, runMax_keep K.toFloat _ _ (by
      intro x hx
      obtain ⟨l, hl, rfl⟩ := List.mem_map.1 hx
      exact hall l hl)]
  · intro f
    have hW2 : (W.recacheLeaves f).GetCandidates =
        W.GetCandidates.map (fun t =>
          Candidate.mk t.data (match t.GetCandidates with
            | [] => []
            | l :: more => l.withPT (f l) :: more)) := rfl
    have hfilled2 : (W.recacheLeaves f).GetCandidates.all (fun t => !t.GetCandidates.isEmpty)
        = true := by
      rw [hW2, List.all_eq_true]
      intro t ht
      rw [List.mem_map] at ht
      obtain ⟨t0, ht0, rfl⟩ := ht
      have := List.all_eq_true.mp hfilled t0 ht0
      cases hc : t0.GetCandidates with
      | nil => simp [hc] at this
      | cons a b => rfl
    have hfirst2 : ∃ first2 rest2, (W.recacheLeaves f).GetCandidates = first2 :: rest2 ∧
        first2.GetCandidates.length ≠ 0 := by
      rw [hW2, hW, List.map_cons]
      refine ⟨_, _, rfl, ?_⟩
      cases hc : first.GetCandidates with
      | nil => simp [hc] at hfirst
      | cons a b => simp [Candidate.GetCandidates]
    obtain ⟨first2, rest2, hW3, hfirst3⟩ := hfirst2
    rw [hone, findGenParticleCustom_one_tower K d _ first2 rest2 array hW3 hfirst3 hfilled2,
      hW2, towerScores_recache]
    rfl
  · intro dObj dW dT1 da dT2 db hex _ ha _ hb
    have hex1 : K.toFloat 1 = 1 := hex
    rw [findGenParticleCustom_one_tower K dObj
      (Candidate.mk dW [Candidate.mk dT1 [Candidate.mk da []], Candidate.mk dT2 [Candidate.mk db []]])
      (Candidate.mk dT1 [Candidate.mk da []])
      [Candidate.mk dT2 [Candidate.mk db []]] array rfl (by simp [Candidate.GetCandidates]) rfl]
    simp [Spec.towerLeaves, Candidate.GetCandidates, runMax, Candidate.Momentum, Candidate.data,
      ha, hb, hex1]

theorem findGenParticleCustom_single_tower_witness :
    findGenParticleCustom Kinematics.axis
        (Example.node 0 false
          [Example.node 1 false
            [Example.node 2 false [Example.leaf 3 false 100 ⟨1, 0, 0, 1⟩],
             Example.node 4 false [Example.leaf 5 false 1 ⟨2, 0, 0, 2⟩]]]) [] =
      some (⟨2, 0, 0, 2⟩,
        [Example.leaf 3 false 100 ⟨1, 0, 0, 1⟩, Example.leaf 5 false 1 ⟨2, 0, 0, 2⟩]) :=
  (findGenParticleCustom_single_tower Kinematics.axis ⟨0, false, 0, 0, 0⟩
    (Example.node 1 false
      [Example.node 2 false [Example.leaf 3 false 100 ⟨1, 0, 0, 1⟩],
       Example.node 4 false [Example.leaf 5 false 1 ⟨2, 0, 0, 2⟩]])
    (Example.node 2 false [Example.leaf 3 false 100 ⟨1, 0, 0, 1⟩])
    [Example.node 4 false [Example.leaf 5 false 1 ⟨2, 0, 0, 2⟩]] []
    rfl (by decide) (by decide)).2.2.2.2.2
      ⟨0, false, 0, 0, 0⟩ ⟨1, false, 0, 0, 0⟩ ⟨2, false, 0, 0, 0⟩ ⟨3, false, 100, ⟨1, 0, 0, 1⟩, 0⟩
      ⟨4, false, 0, 0, 0⟩ ⟨5, false, 1, ⟨2, 0, 0, 2⟩, 0⟩ rfl rfl rfl rfl rfl

/-! ## Deduplication, list by list -/

/-- C19: in the entry written for an object, when the energies of the two sums
do not add up to zero both fractions are finite and add up to exactly 1; when
the secondary energy is zero and the primary energy is not, `hardfrac` is 1
and `pufrac` is 0. -/
theorem fractions_sum_to_one (K : Kinematics) (obj : Candidate)
    (hok : obj.derefOK = true) (hne : obj.GetCandidates ≠ []) :
    ∃ (entry : ParticleFlowCandidate) (hard soft : TLorentzVector),
      ProcessParticleFlowCandidates.body K obj = some entry ∧
      (∀ array : TRefArray,
        FillParticlesCustom K obj array = some ((hard, soft), Spec.flatten obj)) ∧
      entry.hardfrac = Fraction.div hard.E (hard.E + soft.E) ∧
      entry.pufrac = Fraction.div soft.E (hard.E + soft.E) ∧
      (hard.E + soft.E ≠ 0 →
        ∃ a b : ℚ, entry.hardfrac = Fraction.finite a ∧ entry.pufrac = Fraction.finite b ∧
          a + b = 1) ∧
      (soft.E = 0 → hard.E ≠ 0 →
        entry.hardfrac = Fraction.finite 1 ∧ entry.pufrac = Fraction.finite 0) := by
  cases hcs : obj.GetCandidates with
  | nil => exact absurd hcs hne
  | cons first rest =>
    obtain ⟨hard, soft, hfill, hbody⟩ :=
      ProcessParticleFlowCandidates_body_eq K obj first rest hok hcs
    have hall : ∀ array : TRefArray,
        FillParticlesCustom K obj array = some ((hard, soft), Spec.flatten obj) := by
      intro array
      rw [FillParticlesCustom_eq K obj _ hok] at hfill
      rw [FillParticlesCustom_eq K obj array hok]
      exact hfill
    refine ⟨_, hard, soft, hbody, hall, rfl, rfl, ?_, ?_⟩
    · intro hden
      refine ⟨hard.E / (hard.E + soft.E), soft.E / (hard.E + soft.E), ?_, ?_, ?_⟩
      · simp [Fraction.div, hden]
      · simp [Fraction.div, hden]
      · rw [← add_div, div_self hden]
    · intro hs hh
      simp [Fraction.div, hs, hh]

theorem fractions_sum_to_one_witness :
    (ProcessParticleFlowCandidates.body Kinematics.axis Example.mixedTower).map
        (fun entry => (entry.hardfrac, entry.pufrac)) =
      some (Fraction.finite (2 / 5), Fraction.finite (3 / 5)) := by
  obtain ⟨entry, hard, soft, hbody, hfill, hh, hp, _, _⟩ :=
    fractions_sum_to_one Kinematics.axis Example.mixedTower (by decide) (List.cons_ne_nil _ _)
  have hev : FillParticlesCustom Kinematics.axis Example.mixedTower [] =
      some (((0 : TLorentzVector) + TLorentzVector.mk 4 0 0 4,
        (0 : TLorentzVector) + TLorentzVector.mk 6 0 0 6), Spec.flatten Example.mixedTower) := rfl
  rw [hfill []] at hev
  simp only [Option.some.injEq, Prod.mk.injEq, and_true] at hev
  obtain ⟨hhard, hsoft⟩ := hev
  rw [hbody, Option.map_some', hh, hp, hhard, hsoft]
  norm_num [Fraction.div, TLorentzVector_add_E, TLorentzVector_zero_E]

/-! ## Pile-up flags and the leading particle -/

theorem eraseIsPUList_eq_map (cs : List Candidate) :
    Candidate.eraseIsPUList cs = cs.map Candidate.eraseIsPU := by
  induction cs with
  | nil => rfl
  | cons c rest ih =>
    rw [Candidate.eraseIsPUList, ih]
    rfl

theorem eraseIsPU_GetCandidates (c : Candidate) :
    c.eraseIsPU.GetCandidates = c.GetCandidates.map Candidate.eraseIsPU := by
  cases c with
  | mk d cs =>
    rw [Candidate.eraseIsPU]
    exact eraseIsPUList_eq_map cs

theorem eraseIsPU_PT (c : Candidate) : c.eraseIsPU.PT = c.PT := by
  cases c with
  | mk d cs =>
    rw [Candidate.eraseIsPU]
    rfl

theorem eraseIsPU_Momentum (c : Candidate) : c.eraseIsPU.Momentum = c.Momentum := by
  cases c with
  | mk d cs =>
    rw [Candidate.eraseIsPU]
    rfl

theorem eraseIsPU_isEmpty (c : Candidate) :
    c.eraseIsPU.GetCandidates.isEmpty = c.GetCandidates.isEmpty := by
  rw [eraseIsPU_GetCandidates]
  cases c.GetCandidates <;> rfl

theorem eraseIsPU_length (c : Candidate) :
    c.eraseIsPU.GetCandidates.length = c.GetCandidates.length := by
  rw [eraseIsPU_GetCandidates, List.length_map]

theorem classify_eraseIsPU (c : Candidate) :
    Spec.classify c.eraseIsPU = Spec.classify c := by
  rw [classify_eq_byCounts, classify_eq_byCounts, eraseIsPU_length, eraseIsPU_GetCandidates]
  congr 1
  cases c.GetCandidates with
  | nil => rfl
  | cons first rest => simp [eraseIsPU_length]

theorem towerLeaves_eraseIsPU (ts : List Candidate) :
    Spec.towerLeaves (ts.map Candidate.eraseIsPU) =
      (Spec.towerLeaves ts).map Candidate.eraseIsPU := by
  induction ts with
  | nil => rfl
  | cons t rest ih =>
    unfold Spec.towerLeaves at ih ⊢
    rw [List.map_cons, List.flatMap_cons, List.flatMap_cons, List.map_append, ih,
      eraseIsPU_GetCandidates]
    congr 1
    cases t.GetCandidates <;> rfl

theorem emission_eraseIsPU (c : Candidate) :
    Spec.emission c.eraseIsPU = (Spec.emission c).map Candidate.eraseIsPU := by
  unfold Spec.emission
  rw [classify_eraseIsPU]
  cases Spec.classify c with
  | Leaf => rfl
  | TrackLike =>
    simp only [eraseIsPU_GetCandidates]
    cases c.GetCandidates <;> rfl
  | TowerLike =>
    simp only [eraseIsPU_GetCandidates]
    exact towerLeaves_eraseIsPU _

theorem flatten_eraseIsPU (obj : Candidate) :
    Spec.flatten obj.eraseIsPU = (Spec.flatten obj).map Candidate.eraseIsPU := by
  unfold Spec.flatten
  rw [eraseIsPU_GetCandidates]
  induction obj.GetCandidates with
  | nil => rfl
  | cons c rest ih =>
    rw [List.map_cons, List.flatMap_cons, List.flatMap_cons, List.map_append, ih,
      emission_eraseIsPU]

theorem towerFilled_eraseIsPU (c : Candidate) : c.eraseIsPU.towerFilled = c.towerFilled := by
  unfold Candidate.towerFilled
  rw [eraseIsPU_GetCandidates]
  cases c.GetCandidates with
  | nil => rfl
  | cons first rest =>
    simp only [List.map_cons, List.all_cons, List.all_map, Function.comp_def, eraseIsPU_isEmpty]

theorem derefOK_eraseIsPU (obj : Candidate) : obj.eraseIsPU.derefOK = obj.derefOK := by
  unfold Candidate.derefOK
  rw [eraseIsPU_GetCandidates, List.all_map]
  congr 1
  funext c
  exact towerFilled_eraseIsPU c

theorem leadStep_eraseIsPU (K : Kinematics) (best : TLorentzVector × ℚ) (c : Candidate) :
    leadStep (fun l => K.rebuild l.Momentum) K best c.eraseIsPU =
      leadStep (fun l => K.rebuild l.Momentum) K best c := by
  unfold leadStep
  rw [classify_eraseIsPU]
  cases Spec.classify c with
  | Leaf => simp only [eraseIsPU_PT, eraseIsPU_Momentum]
  | TrackLike => rfl
  | TowerLike =>
    simp only [eraseIsPU_GetCandidates, towerLeaves_eraseIsPU, List.map_map, Function.comp_def,
      eraseIsPU_Momentum]

theorem foldl_leadStep_eraseIsPU (K : Kinematics) (cs : List Candidate)
    (best : TLorentzVector × ℚ) :
    (cs.map Candidate.eraseIsPU).foldl (leadStep (fun l => K.rebuild l.Momentum) K) best =
      cs.foldl (leadStep (fun l => K.rebuild l.Momentum) K) best := by
  induction cs generalizing best with
  | nil => rfl
  | cons c rest ih =>
    rw [List.map_cons, List.foldl_cons, List.foldl_cons, leadStep_eraseIsPU, ih]

theorem leadingMomentum_eq_foldl (K : Kinematics) (obj : Candidate) :
    leadingMomentum K (leadingLeaf K obj) =
      (obj.GetCandidates.foldl (leadStep (fun l => K.rebuild l.Momentum) K) (0, -1)).1 := by
  have hmap := foldl_leadStep_map (leadingMomentum K) some K obj.GetCandidates (none, -1)
  have hfst := congrArg Prod.fst hmap
  simp only [leadingMomentum] at hfst
  unfold leadingLeaf
  simp only [leadingMomentum]
  rw [← hfst]

theorem findGenParticleCustom_eraseIsPU (K : Kinematics) (obj : Candidate) (array : TRefArray) :
    findGenParticleCustom K obj.eraseIsPU array =
      (findGenParticleCustom K obj array).map
        (fun r => (r.1, r.2.map Candidate.eraseIsPU)) := by
  cases hok : obj.derefOK with
  | true =>
    have hok2 : obj.eraseIsPU.derefOK = true := by rw [derefOK_eraseIsPU, hok]
    rw [findGenParticleCustom_eq K obj array hok, findGenParticleCustom_eq K _ array hok2,
      flatten_eraseIsPU, leadingMomentum_eq_foldl, leadingMomentum_eq_foldl,
      eraseIsPU_GetCandidates, foldl_leadStep_eraseIsPU]
    rfl
  | false =>
    have hok2 : obj.eraseIsPU.derefOK = false := by rw [derefOK_eraseIsPU, hok]
    have h1 := findGenParticleCustom_isSome K obj array
    have h2 := findGenParticleCustom_isSome K obj.eraseIsPU array
    rw [hok] at h1
    rw [hok2] at h2
    have n1 : findGenParticleCustom K obj array = none :=
      Option.not_isSome_iff_eq_none.1 (by simp [h1])
    have n2 : findGenParticleCustom K obj.eraseIsPU array = none :=
      Option.not_isSome_iff_eq_none.1 (by simp [h2])
    rw [n1, n2]
    rfl

/-- C20: two objects whose graphs are identical except for pile-up flags get
the same vector from `findGenParticleCustom` and arrays of corresponding
Leaves (equal once the flags are cleared), or both fail; the `hard` and `soft`
lists the function fills do not reach its result. -/
theorem findGenParticleCustom_ignores_IsPU (K : Kinematics) (obj1 obj2 : Candidate)
    (array1 array2 : TRefArray) (h : obj1.eraseIsPU = obj2.eraseIsPU) :
    (findGenParticleCustom K obj1 array1).map Prod.fst =
      (findGenParticleCustom K obj2 array2).map Prod.fst ∧
    (findGenParticleCustom K obj1 array1).map (fun r => r.2.map Candidate.eraseIsPU) =
      (findGenParticleCustom K obj2 array2).map (fun r => r.2.map Candidate.eraseIsPU) ∧
    (findGenParticleCustom K obj1 array1).isSome =
      (findGenParticleCustom K obj2 array2).isSome := by
  have e1 := findGenParticleCustom_eraseIsPU K obj1 array1
  have e2 := findGenParticleCustom_eraseIsPU K obj2 array2
  have harr : findGenParticleCustom K obj2.eraseIsPU array1 =
      findGenParticleCustom K obj2.eraseIsPU array2 := by
    unfold findGenParticleCustom findGenParticleCustom.init TRefArray.Clear
    rfl
  rw [h, harr, e2] at e1
  cases h1 : findGenParticleCustom K obj1 array1 with
  | none =>
    cases h2 : findGenParticleCustom K obj2 array2 with
    | none => exact ⟨rfl, rfl, rfl⟩
    | some r2 => rw [h1, h2] at e1; simp at e1
  | some r1 =>
    cases h2 : findGenParticleCustom K obj2 array2 with
    | none => rw [h1, h2] at e1; simp at e1
    | some r2 =>
      rw [h1, h2] at e1
      simp only [Option.map_some', Option.some.injEq, Prod.mk.injEq] at e1
      simp only [Option.map_some', Option.isSome_some, Option.some.injEq]
      exact ⟨e1.1.symm, e1.2.symm, trivial⟩

theorem findGenParticleCustom_ignores_IsPU_witness :
    (findGenParticleCustom Kinematics.axis
        (Example.node 0 false
          [Example.leaf 1 false 3 ⟨3, 0, 0, 3⟩, Example.leaf 2 true 7 ⟨7, 0, 0, 7⟩]) []).map
        Prod.fst =
      (findGenParticleCustom Kinematics.axis
        (Example.node 0 true
          [Example.leaf 1 true 3 ⟨3, 0, 0, 3⟩, Example.leaf 2 false 7 ⟨7, 0, 0, 7⟩]) []).map
        Prod.fst :=
  (findGenParticleCustom_ignores_IsPU Kinematics.axis
    (Example.node 0 false
      [Example.leaf 1 false 3 ⟨3, 0, 0, 3⟩, Example.leaf 2 true 7 ⟨7, 0, 0, 7⟩])
    (Example.node 0 true
      [Example.leaf 1 true 3 ⟨3, 0, 0, 3⟩, Example.leaf 2 false 7 ⟨7, 0, 0, 7⟩]) [] [] rfl).1

/-! ## The score a tower leaves behind -/

theorem towerScore_eq (K : Kinematics) (W : Candidate) (p : TLorentzVector) :
    (runMax K.toFloat (p, (0 : ℚ))
      ((Spec.towerLeaves W.GetCandidates).map
        (fun l => (K.Pt l.Momentum, K.rebuild l.Momentum)))).2 = towerScore K W :=
  scoreAfter_eq K (fun l => K.rebuild l.Momentum) p (Spec.towerLeaves W.GetCandidates)

/-- C21, counterexample: a tower whose only Leaf has `Pt()` 16777219 leaves
the single-precision score 16777220, so a following Leaf with cached `PT`
16777220, which is strictly greater than the greatest `Pt()` of the tower's
Leaves, does not replace the running best: the tower's Leaf is returned. -/
theorem findGenParticleCustom_score_carries_counterexample :
    findGenParticleCustom Kinematics.axis Example.roundedTowerThenLeaf [] =
      some (⟨16777219, 0, 0, 16777219⟩,
        [Example.leaf 3 false 0 ⟨16777219, 0, 0, 16777219⟩,
         Example.leaf 4 false 16777220 ⟨16777220, 0, 0, 16777220⟩]) ∧
    (Example.leaf 4 false 16777220 ⟨16777220, 0, 0, 16777220⟩).PT >
      Kinematics.axis.Pt (Example.leaf 3 false 0 ⟨16777219, 0, 0, 16777219⟩).Momentum ∧
    Kinematics.axis.rebuild (Example.leaf 4 false 16777220 ⟨16777220, 0, 0, 16777220⟩).Momentum ≠
      ⟨16777219, 0, 0, 16777219⟩ ∧
    towerScore Kinematics.axis
      (Example.node 1 false
        [Example.node 2 false [Example.leaf 3 false 0 ⟨16777219, 0, 0, 16777219⟩]]) =
      16777220 := by
  refine ⟨rfl, by decide, by decide, by decide⟩

/-- C21, amended: the score a tower leaves in `maxpt` is the single-precision
value of the `Pt()` of the last of its Leaves that exceeded the score, and 0
when no Leaf has `Pt() > 0`; when storing in single precision changes the
`Pt()` of no Leaf of the tower it is the greatest `Pt()` among the Leaves when
one is positive.  The next pass of the loop starts from that score: a Leaf
constituent that follows the tower becomes the running best if and only if its
cached `PT` is strictly greater than it.  For
`[TowerLike{TrackLike(leaf pt=2)}, Leaf(PT=1)]` the result is the tower's leaf,
for `[TowerLike{TrackLike(leaf pt=2)}, Leaf(PT=3)]` the later Leaf, 2 being a
single-precision value. -/
theorem findGenParticleCustom_score_carries (K : Kinematics) (s : LeadState)
    (W first c : Candidate) (rest : List Candidate)
    (hW : W.GetCandidates = first :: rest) (hfirst : first.GetCandidates.length ≠ 0)
    (hfilled : W.GetCandidates.all (fun t => !t.GetCandidates.isEmpty) = true)
    (hc : c.GetCandidates = []) :
    (∃ s1 s2 : LeadState,
      findGenParticleCustom.body K s W = some s1 ∧
      s1.maxpt = towerScore K W ∧
      findGenParticleCustom.body K s1 c = some s2 ∧
      findGenParticleCustom.loop K s [W, c] = some s2 ∧
      (c.PT > towerScore K W → s2.maxpart = K.rebuild c.Momentum ∧ s2.maxpt = c.PT) ∧
      (¬ c.PT > towerScore K W → s2.maxpart = s1.maxpart ∧ s2.maxpt = s1.maxpt) ∧
      (s2.maxpart = K.rebuild c.Momentum ∧ s2.maxpt = c.PT ∨
        s2.maxpart = s1.maxpart ∧ s2.maxpt = s1.maxpt)) ∧
    ((∀ l ∈ Spec.towerLeaves W.GetCandidates, K.Pt l.Momentum ≤ 0) → towerScore K W = 0) ∧
    ((∃ l ∈ Spec.towerLeaves W.GetCandidates, 0 < K.Pt l.Momentum) →
      ∃ (i : ℕ) (w : Candidate), (Spec.towerLeaves W.GetCandidates)[i]? = some w ∧
        towerScore K W = K.toFloat (K.Pt w.Momentum) ∧
        scoreAfter K ((Spec.towerLeaves W.GetCandidates).take i) < K.Pt w.Momentum ∧
        (∀ (j : ℕ) (l : Candidate), i < j → (Spec.towerLeaves W.GetCandidates)[j]? = some l →
          K.Pt l.Momentum ≤ K.toFloat (K.Pt w.Momentum))) ∧
    ((∀ l ∈ Spec.towerLeaves W.GetCandidates, K.Exact (K.Pt l.Momentum)) →
      0 ≤ towerScore K W ∧
      (∀ l ∈ Spec.towerLeaves W.GetCandidates, K.Pt l.Momentum ≤ towerScore K W) ∧
      (towerScore K W = 0 ∨
        ∃ l ∈ Spec.towerLeaves W.GetCandidates, K.Pt l.Momentum = towerScore K W)) ∧
    (∀ (dObj dW dT dl dc : CandidateData) (array : TRefArray), K.Exact 2 →
      K.Pt dl.Momentum = 2 → dc.PT = 1 →
      findGenParticleCustom K
          (Candidate.mk dObj
            [Candidate.mk dW [Candidate.mk dT [Candidate.mk dl []]], Candidate.mk dc []]) array =
        some (K.rebuild dl.Momentum, [Candidate.mk dl [], Candidate.mk dc []])) ∧
    (∀ (dObj dW dT dl dc : CandidateData) (array : TRefArray), K.Exact 2 →
      K.Pt dl.Momentum = 2 → dc.PT = 3 →
      findGenParticleCustom K
          (Candidate.mk dObj
            [Candidate.mk dW [Candidate.mk dT [Candidate.mk dl []]], Candidate.mk dc []]) array =
        some (K.rebuild dc.Momentum, [Candidate.mk dl [], Candidate.mk dc []])) := by
  have hbody := findGenParticleCustom_body_tower K s W first rest hW hfirst hfilled
  refine ⟨?_, ?_, ?_, ?_, ?_, ?_⟩
  · have hs1 : ∃ s1 : LeadState, findGenParticleCustom.body K s W = some s1 ∧
        s1.maxpt = towerScore K W := ⟨_, hbody, towerScore_eq K W s.maxpart⟩
    obtain ⟨s1, hb1, hm1⟩ := hs1
    refine ⟨s1, findGenParticleCustom.particle K s1 c, hb1, hm1, ?_, ?_, ?_, ?_, ?_⟩
    · simp [findGenParticleCustom.body, hc]
    · simp only [findGenParticleCustom.loop]
      rw [hb1]
      simp [findGenParticleCustom.body, hc]
    · intro hgt
      rw [← hm1] at hgt
      cases hpu : c.IsPU <;> simp [findGenParticleCustom.particle, hgt, hpu]
    · intro hgt
      rw [← hm1] at hgt
      cases hpu : c.IsPU <;> simp [findGenParticleCustom.particle, hgt, hpu]
    · by_cases hgt : c.PT > s1.maxpt
      · left
        cases hpu : c.IsPU <;> simp [findGenParticleCustom.particle, hgt, hpu]
      · right
        cases hpu : c.IsPU <;> simp [findGenParticleCustom.particle, hgt, hpu]
  · intro hall
    unfold towerScore scoreAfter
    rw [runMax_keep K.toFloat _ _ (by
      intro x hx
      obtain ⟨l, hl, rfl⟩ := List.mem_map.1 hx
      exact hall l hl)]
  · intro hpos
    obtain ⟨i, w, hi, hrun, hbefore, hafter⟩ :=
      runMax_tower K (fun _ => ()) () (Spec.towerLeaves W.GetCandidates) hpos
    refine ⟨i, w, hi, ?_, hbefore, hafter⟩
    unfold towerScore scoreAfter
    rw [hrun]
  · intro hexact
    rcases runMax_spec K.toFloat
      ((Spec.towerLeaves W.GetCandidates).map (fun l => (K.Pt l.Momentum, ())))
      ((), (0 : ℚ))
      (by
        intro x hx
        obtain ⟨l, hl, rfl⟩ := List.mem_map.1 hx
        exact hexact l hl) with
      ⟨hrun, hle⟩ | ⟨i, w, hi, hrun, hlt, hle, _⟩
    · have hz : towerScore K W = 0 := by
        unfold towerScore scoreAfter
        rw [hrun]
      rw [hz]
      refine ⟨le_refl _, ?_, Or.inl rfl⟩
      intro l hl
      exact hle (K.Pt l.Momentum, ()) (List.mem_map.2 ⟨l, hl, rfl⟩)
    · rw [List.getElem?_map] at hi
      cases hci : (Spec.towerLeaves W.GetCandidates)[i]? with
      | none => simp [hci] at hi
      | some c2 =>
        rw [hci] at hi
        simp only [Option.map_some', Option.some.injEq] at hi
        subst hi
        have hz : towerScore K W = K.Pt c2.Momentum := by
          unfold towerScore scoreAfter
          rw [hrun]
        rw [hz]
        refine ⟨le_of_lt hlt, ?_, Or.inr ⟨c2, List.getElem?_mem hci, rfl⟩⟩
        intro l hl
        exact hle (K.Pt l.Momentum, ()) (List.mem_map.2 ⟨l, hl, rfl⟩)
  · intro dObj dW dT dl dc array hex h2 h1
    have hex2 : K.toFloat 2 = 2 := hex
    have hok : (Candidate.mk dObj
        [Candidate.mk dW [Candidate.mk dT [Candidate.mk dl []]], Candidate.mk dc []]).derefOK
          = true := rfl
    rw [findGenParticleCustom_eq K _ array hok]
    have hl : leadingLeaf K (Candidate.mk dObj
        [Candidate.mk dW [Candidate.mk dT [Candidate.mk dl []]], Candidate.mk dc []])
          = some (Candidate.mk dl []) := by
      simp only [leadingLeaf, Candidate.GetCandidates, List.foldl_cons, List.foldl_nil, leadStep,
        Spec.classify, Spec.towerLeaves]
      norm_num [runMax, Candidate.GetCandidates, Candidate.Momentum, Candidate.data,
        Candidate.PT, h2, h1, hex2]
    rw [hl]
    rfl
  · intro dObj dW dT dl dc array hex h2 h3
    have hex2 : K.toFloat 2 = 2 := hex
    have hok : (Candidate.mk dObj
        [Candidate.mk dW [Candidate.mk dT [Candidate.mk dl []]], Candidate.mk dc []]).derefOK
          = true := rfl
    rw [findGenParticleCustom_eq K _ array hok]
    have hl : leadingLeaf K (Candidate.mk dObj
        [Candidate.mk dW [Candidate.mk dT [Candidate.mk dl []]], Candidate.mk dc []])
          = some (Candidate.mk dc []) := by
      simp only [leadingLeaf, Candidate.GetCandidates, List.foldl_cons, List.foldl_nil, leadStep,
        Spec.classify, Spec.towerLeaves]
      norm_num [runMax, Candidate.GetCandidates, Candidate.Momentum, Candidate.data,
        Candidate.PT, h2, h3, hex2]
    rw [hl]
    rfl

theorem findGenParticleCustom_score_carries_witness :
    findGenParticleCustom Kinematics.axis
        (Example.node 0 false
          [Example.node 1 false [Example.node 2 false [Example.leaf 3 false 2 ⟨2, 0, 0, 2⟩]],
           Example.leaf 4 false 3 ⟨3, 0, 0, 3⟩]) [] =
      some (⟨3, 0, 0, 3⟩,
        [Example.leaf 3 false 2 ⟨2, 0, 0, 2⟩, Example.leaf 4 false 3 ⟨3, 0, 0, 3⟩]) :=
  (findGenParticleCustom_score_carries Kinematics.axis (findGenParticleCustom.init [])
    (Example.node 1 false [Example.node 2 false [Example.leaf 3 false 2 ⟨2, 0, 0, 2⟩]])
    (Example.node 2 false [Example.leaf 3 false 2 ⟨2, 0, 0, 2⟩])
    (Example.leaf 4 false 3 ⟨3, 0, 0, 3⟩) []
    rfl (by decide) (by decide) rfl).2.2.2.2.2
      ⟨0, false, 0, 0, 0⟩ ⟨1, false, 0, 0, 0⟩ ⟨2, false, 0, 0, 0⟩ ⟨3, false, 2, ⟨2, 0, 0, 2⟩, 0⟩
      ⟨4, false, 3, ⟨3, 0, 0, 3⟩, 0⟩ [] rfl rfl rfl

/-! ## A first child without children, followed by further children -/

/-- C22: for a constituent with two or more children whose first child has no
children, `FillParticles` adds exactly that first child to the array and
`FillParticlesCustom` files exactly that first child's momentum, under that
child's own pile-up flag; the other children are not read, so replacing them
changes nothing. -/
theorem fanout_truncated (K : Kinematics) (s : AttrState) (array : TRefArray)
    (c first second : Candidate) (more : List Candidate)
    (hc : c.GetCandidates = first :: second :: more) (hfirst : first.GetCandidates = []) :
    FillParticles.body array c = array ++ [first] ∧
    FillParticlesCustom.body K s c =
      some ⟨s.array ++ [first],
        if first.IsPU then s.hard else pushIfAbsent s.hard (K.rebuild first.Momentum),
        if first.IsPU then pushIfAbsent s.soft (K.rebuild first.Momentum) else s.soft⟩ ∧
    (∀ (d : CandidateData) (array1 : TRefArray),
      FillParticles (Candidate.mk d [c]) array1 = [first] ∧
      FillParticlesCustom K (Candidate.mk d [c]) array1 =
        some ((if first.IsPU then
                (K.SetPtEtaPhiE 0 0 0 0, K.SetPtEtaPhiE 0 0 0 0 + K.rebuild first.Momentum)
              else (K.SetPtEtaPhiE 0 0 0 0 + K.rebuild first.Momentum, K.SetPtEtaPhiE 0 0 0 0)),
          [first])) ∧
    (∀ others : List Candidate,
      FillParticles.body array (Candidate.mk c.data (first :: others)) =
        FillParticles.body array c ∧
      FillParticlesCustom.body K s (Candidate.mk c.data (first :: others)) =
        FillParticlesCustom.body K s c) := by
  have hlen : first.GetCandidates.length = 0 := by rw [hfirst]; rfl
  have hflat : FillParticles.body array c = array ++ [first] := by
    simp [FillParticles.body, hc, hlen, TRefArray.Add]
  have hattr : FillParticlesCustom.body K s c =
      some ⟨s.array ++ [first],
        if first.IsPU then s.hard else pushIfAbsent s.hard (K.rebuild first.Momentum),
        if first.IsPU then pushIfAbsent s.soft (K.rebuild first.Momentum) else s.soft⟩ := by
    cases hpu : first.IsPU <;>
      simp [FillParticlesCustom.body, hc, hlen, TRefArray.Add, AttrState.file, hpu]
  refine ⟨hflat, hattr, ?_, ?_⟩
  · intro d array1
    have hcs : (Candidate.mk d [c]).GetCandidates = [c] := rfl
    constructor
    · unfold FillParticles
      rw [hcs]
      simp [FillParticles.loop, FillParticles.body, hc, hlen, TRefArray.Add, TRefArray.Clear]
    · unfold FillParticlesCustom
      rw [hcs]
      cases hpu : first.IsPU <;>
        simp [FillParticlesCustom.loop, FillParticlesCustom.body, hc, hlen, TRefArray.Add,
          TRefArray.Clear, AttrState.file, hpu, pushIfAbsent, sumInto]
  · intro others
    have hco : (Candidate.mk c.data (first :: others)).GetCandidates = first :: others := rfl
    constructor
    · rw [hflat]
      simp [FillParticles.body, hco, hlen, TRefArray.Add]
    · rw [hattr]
      cases hpu : first.IsPU <;>
        simp [FillParticlesCustom.body, hco, hlen, TRefArray.Add, AttrState.file, hpu]

theorem fanout_truncated_witness :
    FillParticles.body []
        (Example.node 1 false
          [Example.leaf 2 true 5 ⟨5, 0, 0, 5⟩, Example.leaf 3 false 6 ⟨6, 0, 0, 6⟩,
           Example.node 4 false [Example.leaf 5 false 7 ⟨7, 0, 0, 7⟩]]) =
      [Example.leaf 2 true 5 ⟨5, 0, 0, 5⟩] ∧
    FillParticlesCustom.body Kinematics.axis ⟨[], [], []⟩
        (Example.node 1 false
          [Example.leaf 2 true 5 ⟨5, 0, 0, 5⟩, Example.leaf 3 false 6 ⟨6, 0, 0, 6⟩,
           Example.node 4 false [Example.leaf 5 false 7 ⟨7, 0, 0, 7⟩]]) =
      some ⟨[Example.leaf 2 true 5 ⟨5, 0, 0, 5⟩], [], [⟨5, 0, 0, 5⟩]⟩ :=
  ⟨(fanout_truncated Kinematics.axis ⟨[], [], []⟩ []
      (Example.node 1 false
        [Example.leaf 2 true 5 ⟨5, 0, 0, 5⟩, Example.leaf 3 false 6 ⟨6, 0, 0, 6⟩,
         Example.node 4 false [Example.leaf 5 false 7 ⟨7, 0, 0, 7⟩]])
      (Example.leaf 2 true 5 ⟨5, 0, 0, 5⟩) (Example.leaf 3 false 6 ⟨6, 0, 0, 6⟩)
      [Example.node 4 false [Example.leaf 5 false 7 ⟨7, 0, 0, 7⟩]] rfl rfl).1,
   (fanout_truncated Kinematics.axis ⟨[], [], []⟩ []
      (Example.node 1 false
        [Example.leaf 2 true 5 ⟨5, 0, 0, 5⟩, Example.leaf 3 false 6 ⟨6, 0, 0, 6⟩,
         Example.node 4 false [Example.leaf 5 false 7 ⟨7, 0, 0, 7⟩]])
      (Example.leaf 2 true 5 ⟨5, 0, 0, 5⟩) (Example.leaf 3 false 6 ⟨6, 0, 0, 6⟩)
      [Example.node 4 false [Example.leaf 5 false 7 ⟨7, 0, 0, 7⟩]] rfl rfl).2.1⟩

end TreeWriter
